import Mathlib

/-!
# PianoLeds2: MIDI parser, processing chain and linear RGB function

A shallow embedding of the MIDI byte parser, the processing chain, the linear
RGB function and the concert of the repository, followed by theorems about them.

* `BaseMidiInput.processMidiByte`  — `Drivers/Common/BaseMidiInput.cpp`
* `ProcessingChain.insertBlock`, `ProcessingChain.execute`,
  `ProcessingChain.convertFromJson` — `Source/Processing/ProcessingChain.cpp`
* `LinearRgbFunction.calculate`, `LinearRgbFunction.convertToJson`,
  `LinearRgbFunction.convertFromJson` — `Source/Processing/LinearRgbFunction.cpp`
* `Concert` — declared in `Processing/Concert.h`; its methods are modelled from
  the specification and checked against `Processing/Test/ConcertTest.cpp`
* `LoggingEntryPoint.subscribe`, `LoggingEntryPoint.unsubscribe`
                                   — `Common/LoggingEntryPoint.cpp`

Bytes (`uint8_t`) are natural numbers below 256; the bit operations of the
source are the bit operations of `Nat`.
-/

namespace PianoLeds

/-! ## MIDI interface (`IMidiInterface.h`) -/

namespace IMidiInterface

/-- Enumerator `TStatus::NOTE_OFF`. -/
def NOTE_OFF : Nat := 0x80

/-- Enumerator `TStatus::NOTE_ON`. -/
def NOTE_ON : Nat := 0x90

/-- Enumerator `TStatus::CONTROL_CHANGE`. -/
def CONTROL_CHANGE : Nat := 0xB0

/-- Modelled from the spec: the enumerator `TStatus::PROGRAM_CHANGE` is used by
`BaseMidiInput::processMidiByte`, but the copy of `IMidiInterface.h` among the
sources does not declare it. The specification gives the program change kind
as `0xC_`. -/
def PROGRAM_CHANGE : Nat := 0xC0

end IMidiInterface

/-- A notification sent to the subscribers of the MIDI input: the arguments of
`notifyNoteOnOff`, `notifyControlChange` and `notifyProgramChange`. -/
inductive MidiEvent where
  | noteOnOff (channel pitch velocity : Nat) (isOn : Bool)
  | controlChange (channel controller value : Nat)
  | programChange (channel number : Nat)
  deriving DecidableEq

/-- The parser state of `BaseMidiInput`: the members `m_buildingMessage` and
`m_currentMessage`. -/
structure BaseMidiInput where
  m_buildingMessage : Bool
  m_currentMessage : List Nat
  deriving DecidableEq

namespace BaseMidiInput

/-- The constructor `BaseMidiInput::BaseMidiInput`: not building, empty buffer. -/
def new : BaseMidiInput :=
  { m_buildingMessage := false, m_currentMessage := [] }

/-- The method `BaseMidiInput::processMidiByte`: the state after the byte and
the notifications sent while processing it, in order. `m_currentMessage[i]` is
`msg.getD i 0`; the `static_cast` to `TStatus` and the cast to
`TControllerNumber` keep the value. -/
def processMidiByte (self : BaseMidiInput) (value : Nat) : BaseMidiInput × List MidiEvent :=
  let s1 : BaseMidiInput :=
    if self.m_buildingMessage = false ∧ value &&& 0x80 = 0x80 then
      -- Is a status byte. Start building new message
      { m_buildingMessage := true, m_currentMessage := [] }
    else self
  if s1.m_buildingMessage = true then
    let msg := s1.m_currentMessage ++ [value]
    let statusByte := msg.getD 0 0
    let status := statusByte &&& 0xF0
    let channel := statusByte &&& 0x0F
    if status = IMidiInterface.NOTE_OFF then
      if msg.length ≥ 3 then
        ({ m_buildingMessage := false, m_currentMessage := msg },
          [MidiEvent.noteOnOff channel (msg.getD 1 0) (msg.getD 2 0) false])
      else ({ m_buildingMessage := true, m_currentMessage := msg }, [])
    else if status = IMidiInterface.NOTE_ON then
      if msg.length ≥ 3 then
        ({ m_buildingMessage := false, m_currentMessage := msg },
          [MidiEvent.noteOnOff channel (msg.getD 1 0) (msg.getD 2 0) true])
      else ({ m_buildingMessage := true, m_currentMessage := msg }, [])
    else if status = IMidiInterface.CONTROL_CHANGE then
      if msg.length ≥ 3 then
        ({ m_buildingMessage := false, m_currentMessage := msg },
          [MidiEvent.controlChange channel (msg.getD 1 0) (msg.getD 2 0)])
      else ({ m_buildingMessage := true, m_currentMessage := msg }, [])
    else if status = IMidiInterface.PROGRAM_CHANGE then
      if msg.length ≥ 2 then
        ({ m_buildingMessage := false, m_currentMessage := msg },
          [MidiEvent.programChange channel (msg.getD 1 0)])
      else ({ m_buildingMessage := true, m_currentMessage := msg }, [])
    else
      -- Unsupported status.
      ({ m_buildingMessage := false, m_currentMessage := msg }, [])
  else
    (s1, [])

/-- Feeding a sequence of bytes, one `processMidiByte` call per byte (the loop
of `RtMidiMidiInput::RtMidiCallback`): final state and all notifications. -/
def processMidiBytes (self : BaseMidiInput) : List Nat → BaseMidiInput × List MidiEvent
  | [] => (self, [])
  | b :: bs =>
    let r := processMidiByte self b
    let rs := processMidiBytes r.1 bs
    (rs.1, r.2 ++ rs.2)

/-- The shape of the parser state: while a message is being built the buffer is
the status byte of a supported kind alone, or that status byte of a three byte
kind with one data byte; otherwise the buffer holds at most three bytes. -/
def wellFormed (self : BaseMidiInput) : Bool :=
  match self.m_buildingMessage, self.m_currentMessage with
  | false, msg => decide (msg.length ≤ 3)
  | true, [b] =>
    decide (b &&& 0x80 = 0x80 ∧
      (b &&& 0xF0 = 0x80 ∨ b &&& 0xF0 = 0x90 ∨ b &&& 0xF0 = 0xB0 ∨ b &&& 0xF0 = 0xC0))
  | true, [b, _] =>
    decide (b &&& 0x80 = 0x80 ∧ (b &&& 0xF0 = 0x80 ∨ b &&& 0xF0 = 0x90 ∨ b &&& 0xF0 = 0xB0))
  | true, _ => false

end BaseMidiInput

namespace MidiEvent

/-- The channel of a notification. -/
def channel : MidiEvent → Nat
  | noteOnOff c _ _ _ => c
  | controlChange c _ _ => c
  | programChange c _ => c

/-- The bytes of the complete MIDI message that stands for a notification: the
status byte made of kind and channel, then the data bytes. -/
def toBytes : MidiEvent → List Nat
  | noteOnOff c p v true => [0x90 ||| c, p, v]
  | noteOnOff c p v false => [0x80 ||| c, p, v]
  | controlChange c n v => [0xB0 ||| c, n, v]
  | programChange c n => [0xC0 ||| c, n]

end MidiEvent

/-! ## Processing types (`Interfaces/ProcessingTypes.h`) -/

/-- Modelled from the spec: `Processing::TRgb` is declared in
`ProcessingTypes.h`, which is not among the sources. The specification gives
three 8-bit channels (red, green, blue). -/
structure TRgb where
  r : Nat
  g : Nat
  b : Nat
  deriving DecidableEq

/-- Modelled from the spec: the default constructor of `Processing::TRgb`
(`Processing::TRgb output;`), not among the sources. The specification calls the
colour of a note that is not sounding the zero colour. -/
def TRgb.new : TRgb := { r := 0, g := 0, b := 0 }

/-- Type `Processing::TRgbStrip`: the colours of the strip by light position. -/
abbrev TRgbStrip := List TRgb

/-- Modelled from the spec: `Processing::TNoteState` is declared in
`ProcessingTypes.h`, which is not among the sources. The specification gives
the fields `sounding` and `pressDownVelocity` (a byte). -/
structure TNoteState where
  sounding : Bool
  pressDownVelocity : Nat
  deriving DecidableEq

/-- Type `Processing::TTime`, a time stamp. -/
abbrev TTime := Nat

/-! ## Processing chain (`ProcessingChain.cpp`) -/

/-- Modelled from the spec: the interface `IProcessingBlock` is not among the
sources. A block is a pipeline stage whose `execute` mutates the strip in place
and may update state that is private to the block. -/
structure IProcessingBlock where
  State : Type
  state : State
  run : State → TRgbStrip → State × TRgbStrip

/-- The call `pProcessingBlock->execute(strip)`: the block after the call and
the strip it leaves. -/
def IProcessingBlock.execute (self : IProcessingBlock) (strip : TRgbStrip) :
    IProcessingBlock × TRgbStrip :=
  ({ State := self.State, state := (self.run self.state strip).1, run := self.run },
    (self.run self.state strip).2)

/-- The library call `v.insert(v.begin() + index, x)` of `std::vector`. It
is defined only for `index ≤ v.size()`; otherwise the result is `none`. -/
def vectorInsert {α : Type u} : List α → Nat → α → Option (List α)
  | xs, 0, x => some (x :: xs)
  | [], _ + 1, _ => none
  | y :: ys, i + 1, x => (vectorInsert ys i x).map (fun zs => y :: zs)

/-- The class `ProcessingChain`: the member `m_processingChain`, a vector of
block pointers. A null pointer is `none`. -/
structure ProcessingChain where
  m_processingChain : List (Option IProcessingBlock)

namespace ProcessingChain

/-- The method `ProcessingChain::insertBlock(IProcessingBlock*, unsigned int)`. -/
def insertBlock (self : ProcessingChain) (pBlock : Option IProcessingBlock) (index : Nat) :
    Option ProcessingChain :=
  let index := if index > self.m_processingChain.length then self.m_processingChain.length else index
  (vectorInsert self.m_processingChain index pBlock).map (fun v => { m_processingChain := v })

/-- The method `ProcessingChain::insertBlock(IProcessingBlock*)`: insertion at
`m_processingChain.end()`. -/
def insertBlockAtEnd (self : ProcessingChain) (pBlock : Option IProcessingBlock) :
    Option ProcessingChain :=
  (vectorInsert self.m_processingChain self.m_processingChain.length pBlock).map
    (fun v => { m_processingChain := v })

/-- The loop of `ProcessingChain::execute` over the blocks not yet visited:
the blocks after their calls and the strip at the end. Calling `execute` through
a null pointer has no result. -/
def executeLoop : List (Option IProcessingBlock) → TRgbStrip →
    Option (List (Option IProcessingBlock) × TRgbStrip)
  | [], strip => some ([], strip)
  | none :: _, _ => none
  | some pProcessingBlock :: rest, strip =>
    match executeLoop rest (pProcessingBlock.execute strip).2 with
    | none => none
    | some (rest1, strip1) => some (some (pProcessingBlock.execute strip).1 :: rest1, strip1)

/-- The method `ProcessingChain::execute`: the chain and the strip after the call. -/
def execute (self : ProcessingChain) (strip : TRgbStrip) : Option (ProcessingChain × TRgbStrip) :=
  (executeLoop self.m_processingChain strip).map
    (fun r => ({ m_processingChain := r.1 }, r.2))

end ProcessingChain

/-! ## Linear RGB function (`LinearRgbFunction.cpp`)

The constants are `float`s in the source. The embedding is generic in the
number type `F`: it only uses the product, the sum and the conversion of the
velocity byte to `F`, in the order the source applies them. -/

/-- Modelled from the spec: `TLinearConstants` is declared in
`LinearRgbFunction.h`, which is not among the sources: a factor and an offset. -/
structure TLinearConstants (F : Type) where
  factor : F
  offset : F

/-- The class `LinearRgbFunction`: the constants of the three channels. -/
structure LinearRgbFunction (F : Type) where
  m_redConstants : TLinearConstants F
  m_greenConstants : TLinearConstants F
  m_blueConstants : TLinearConstants F

namespace LinearRgbFunction

/-- The method `LinearRgbFunction::calculate`. The helper
`Processing::rgbFromFloat`, which turns three numbers into a colour, is not
among the sources and is a parameter. -/
def calculate {F : Type} [Mul F] [Add F] [NatCast F] (rgbFromFloat : F → F → F → TRgb)
    (self : LinearRgbFunction F) (noteState : TNoteState) (_currentTime : TTime) : TRgb :=
  let output : TRgb := TRgb.new
  if noteState.sounding = true then
    rgbFromFloat
      (self.m_redConstants.factor * (noteState.pressDownVelocity : F) + self.m_redConstants.offset)
      (self.m_greenConstants.factor * (noteState.pressDownVelocity : F) + self.m_greenConstants.offset)
      (self.m_blueConstants.factor * (noteState.pressDownVelocity : F) + self.m_blueConstants.offset)
  else
    output

end LinearRgbFunction

/-! ## JSON documents

The classes of `Source/Processing` exchange their configuration as values of the
JSON library type `json`. Numbers are kept in the number type `F` of the linear
RGB function. -/

/-- A JSON value of the library: null, boolean, number, string, array or object.
The members of an object are kept as a list of key and value with distinct
keys; their order cannot be observed through `count` and `operator[]`. -/
inductive Json (F : Type) where
  | null : Json F
  | bool : Bool → Json F
  | number : F → Json F
  | string : String → Json F
  | array : List (Json F) → Json F
  | object : List (String × Json F) → Json F

namespace Json

/-- Lookup of a key among the members of an object. -/
def lookupMember {F : Type} (key : String) : List (String × Json F) → Option (Json F)
  | [] => none
  | (k, v) :: rest => if k = key then some v else lookupMember key rest

/-- The assignment `j[key] = v` on the members of an object: the value of an
existing key is replaced, a new key is added. -/
def setMember {F : Type} (key : String) (v : Json F) :
    List (String × Json F) → List (String × Json F)
  | [] => [(key, v)]
  | (k, w) :: rest => if k = key then (key, v) :: rest else (k, w) :: setMember key v rest

/-- The library call `j.count(key)`: 1 for an object that has the key, else 0. -/
def count {F : Type} (j : Json F) (key : String) : Nat :=
  match j with
  | object members =>
    match lookupMember key members with
    | some _ => 1
    | none => 0
  | _ => 0

/-- The library call `j[key]` read for a key the object holds; there is no value
to read otherwise. -/
def get {F : Type} (j : Json F) (key : String) : Option (Json F) :=
  match j with
  | object members => lookupMember key members
  | _ => none

/-- The conversion of a JSON number to `float`; for a value that is not a number
no result is modelled (the library throws). -/
def toFloat {F : Type} : Json F → Option F
  | number x => some x
  | _ => none

/-- The conversion of a JSON array to `std::vector<json>`; the library throws for
a value that is not an array. -/
def toVector {F : Type} : Json F → Option (List (Json F))
  | array items => some items
  | _ => none

end Json

/-- Modelled from the spec: the key `c_processingChainJsonKey` is declared in
`ProcessingChain.h`, which is not among the sources. The specification names the
member `processingChain`. -/
def ProcessingChain.c_processingChainJsonKey : String := "processingChain"

/-- The method `ProcessingChain::convertFromJson`. The factory method
`createProcessingBlock` is a parameter; it returns a block pointer, `none` when
null. There is no result when the library throws on the conversion to a vector. -/
def ProcessingChain.convertFromJson {F : Type}
    (createProcessingBlock : Json F → Option IProcessingBlock)
    (_self : ProcessingChain) (converted : Json F) : Option ProcessingChain :=
  -- m_processingChain.clear()
  let cleared : List (Option IProcessingBlock) := []
  if converted.count ProcessingChain.c_processingChainJsonKey > 0 then
    match (converted.get ProcessingChain.c_processingChainJsonKey).bind Json.toVector with
    | none => none
    | some convertedChain =>
      let filled := convertedChain.foldl
        (fun chain convertedBlock => chain ++ [createProcessingBlock convertedBlock]) cleared
      some { m_processingChain := filled }
  else
    some { m_processingChain := cleared }

namespace LinearRgbFunction

/-- Modelled from the spec: the six member keys are declared in
`LinearRgbFunction.h`, which is not among the sources. The specification lists
the fields `rFactor, gFactor, bFactor, rOffset, gOffset, bOffset`. -/
def c_rFactorJsonKey : String := "rFactor"

/-- Modelled from the spec: see `c_rFactorJsonKey`. -/
def c_gFactorJsonKey : String := "gFactor"

/-- Modelled from the spec: see `c_rFactorJsonKey`. -/
def c_bFactorJsonKey : String := "bFactor"

/-- Modelled from the spec: see `c_rFactorJsonKey`. -/
def c_rOffsetJsonKey : String := "rOffset"

/-- Modelled from the spec: see `c_rFactorJsonKey`. -/
def c_gOffsetJsonKey : String := "gOffset"

/-- Modelled from the spec: see `c_rFactorJsonKey`. -/
def c_bOffsetJsonKey : String := "bOffset"

/-- Modelled from the spec: the key `IJsonConvertible::c_objectTypeKey` is
declared in `IJsonConvertible.h`, which is not among the sources. The
specification names the discriminator `objectType`. -/
def c_objectTypeKey : String := "objectType"

/-- The method `LinearRgbFunction::convertToJson`. The type name
`IRgbFunction::c_jsonTypeNameLinearRgbFunction` is not among the sources and is
a parameter. The local `json` starts as null and becomes an object with the
first assignment. -/
def convertToJson {F : Type} (c_jsonTypeNameLinearRgbFunction : String)
    (self : LinearRgbFunction F) : Json F :=
  let m0 : List (String × Json F) := []
  let m1 := Json.setMember c_objectTypeKey (Json.string c_jsonTypeNameLinearRgbFunction) m0
  let m2 := Json.setMember c_rFactorJsonKey (Json.number self.m_redConstants.factor) m1
  let m3 := Json.setMember c_gFactorJsonKey (Json.number self.m_greenConstants.factor) m2
  let m4 := Json.setMember c_bFactorJsonKey (Json.number self.m_blueConstants.factor) m3
  let m5 := Json.setMember c_rOffsetJsonKey (Json.number self.m_redConstants.offset) m4
  let m6 := Json.setMember c_gOffsetJsonKey (Json.number self.m_greenConstants.offset) m5
  let m7 := Json.setMember c_bOffsetJsonKey (Json.number self.m_blueConstants.offset) m6
  Json.object m7

/-- One step of `convertFromJson`, `if(json.count(key) > 0) { field = json[key]; }`:
the new value of the field, or no result when the conversion throws. -/
def readMember {F : Type} (json : Json F) (key : String) (field : F) : Option F :=
  if json.count key > 0 then (json.get key).bind Json.toFloat else some field

/-- The method `LinearRgbFunction::convertFromJson`: the six steps in the order
of the source. -/
def convertFromJson {F : Type} (self : LinearRgbFunction F) (json : Json F) :
    Option (LinearRgbFunction F) :=
  (readMember json c_rFactorJsonKey self.m_redConstants.factor).bind fun rFactor =>
  (readMember json c_gFactorJsonKey self.m_greenConstants.factor).bind fun gFactor =>
  (readMember json c_bFactorJsonKey self.m_blueConstants.factor).bind fun bFactor =>
  (readMember json c_rOffsetJsonKey self.m_redConstants.offset).bind fun rOffset =>
  (readMember json c_gOffsetJsonKey self.m_greenConstants.offset).bind fun gOffset =>
  (readMember json c_bOffsetJsonKey self.m_blueConstants.offset).bind fun bOffset =>
  some { m_redConstants := { factor := rFactor, offset := rOffset },
         m_greenConstants := { factor := gFactor, offset := gOffset },
         m_blueConstants := { factor := bFactor, offset := bOffset } }

end LinearRgbFunction

/-! ## Concert (`Processing/Concert.h`)

Only the declaration of the class `Concert` and its tests are among the
sources. The methods are modelled from the specification; the members keep the
names of `Concert.h`. -/

/-- Type `Processing::TNoteToLightMap`: the light index of each mapped note, as
a list of note number and light index with distinct note numbers. -/
abbrev TNoteToLightMap := List (Nat × Nat)

/-- Modelled from the spec: the interface `IPatch` is not among the sources. A
patch has a name, an optional bank and an optional program, an activation flag,
and an `execute` that works on the strip with the note to light map and may
update state private to the patch (its processing chain). -/
structure IPatch where
  name : String
  bank : Option Nat
  program : Option Nat
  active : Bool
  State : Type
  state : State
  run : State → TRgbStrip → TNoteToLightMap → State × TRgbStrip

namespace IPatch

/-- Modelled from the spec: `IPatch::activate`, the patch becomes active. -/
def activate (self : IPatch) : IPatch :=
  { name := self.name, bank := self.bank, program := self.program, active := true,
    State := self.State, state := self.state, run := self.run }

/-- Modelled from the spec: `IPatch::deactivate`, the patch stops being active. -/
def deactivate (self : IPatch) : IPatch :=
  { name := self.name, bank := self.bank, program := self.program, active := false,
    State := self.State, state := self.state, run := self.run }

/-- Modelled from the spec: `IPatch::execute(strip, noteToLightMap)`, the patch
after the call and the strip it leaves. -/
def execute (self : IPatch) (strip : TRgbStrip) (noteToLightMap : TNoteToLightMap) :
    IPatch × TRgbStrip :=
  ({ name := self.name, bank := self.bank, program := self.program, active := self.active,
     State := self.State, state := (self.run self.state strip noteToLightMap).1,
     run := self.run },
    (self.run self.state strip noteToLightMap).2)

end IPatch

/-- Modelled from the spec: a unit of work queued in the `Scheduler` of the
concert by a MIDI callback; it captures the event. -/
inductive ScheduledTask where
  | controlChange (channel controllerNumber value : Nat)
  | programChange (channel program : Nat)
  deriving DecidableEq

/-- The class `Concert`: the members declared in `Concert.h` that carry state.
`m_activePatch` is the position of the active patch, `none` when no patch is
active; `m_scheduler` is the queue of pending work; `m_observers` are the
subscribed strip observers in subscription order. -/
structure Concert where
  m_noteToLightMap : TNoteToLightMap
  m_patches : List IPatch
  m_activePatch : Option Nat
  m_listeningToProgramChange : Bool
  m_programChangeChannel : Nat
  m_currentBank : Nat
  m_scheduler : List ScheduledTask
  m_observers : List Nat

/-- What one call of `Concert::execute` did: the positions of the patches whose
`execute` was called, in order, and the strips delivered to the observers. -/
structure ExecuteTrace where
  executed : List Nat
  notified : List (Nat × TRgbStrip)

namespace Concert

/-- Constant `Concert::c_invalidPatchPosition`. -/
def c_invalidPatchPosition : Int := -1

/-- Modelled from the spec: the enumerator `IMidiInterface::BANK_SELECT_MSB`,
used by the tests and not declared in the `IMidiInterface.h` among the sources.
The specification gives controller number 0. -/
def BANK_SELECT_MSB : Nat := 0

/-- Modelled from the spec: the enumerator `IMidiInterface::BANK_SELECT_LSB`,
controller number 32 in the specification. -/
def BANK_SELECT_LSB : Nat := 32

/-- Modelled from the spec: the constructor of `Concert`, whose definition is
not among the sources. A fresh concert has no patches, no active patch, an empty
note to light map, bank 0, and does not listen to program changes. -/
def new : Concert :=
  { m_noteToLightMap := [], m_patches := [], m_activePatch := none,
    m_listeningToProgramChange := false, m_programChangeChannel := 0, m_currentBank := 0,
    m_scheduler := [], m_observers := [] }

/-- Modelled from the spec: `Concert::size`, the number of patches. -/
def size (self : Concert) : Nat := self.m_patches.length

/-- Modelled from the spec: `Concert::getCurrentBank`. -/
def getCurrentBank (self : Concert) : Nat := self.m_currentBank

/-- Modelled from the spec: `Concert::setListeningToProgramChange`. -/
def setListeningToProgramChange (self : Concert) (listeningToProgramChange : Bool) : Concert :=
  { self with m_listeningToProgramChange := listeningToProgramChange }

/-- Modelled from the spec: `Concert::setProgramChangeChannel`. -/
def setProgramChangeChannel (self : Concert) (programChangeChannel : Nat) : Concert :=
  { self with m_programChangeChannel := programChangeChannel }

/-- Modelled from the spec: `Concert::setNoteToLightMap`. -/
def setNoteToLightMap (self : Concert) (noteToLightMap : TNoteToLightMap) : Concert :=
  { self with m_noteToLightMap := noteToLightMap }

/-- Modelled from the spec: the derived strip size (`Concert::getStripSize` in
the tests), whose definition is not among the sources: the largest light index
of the note to light map plus one, or 0 for the empty map. -/
def stripSize (noteToLightMap : TNoteToLightMap) : Nat :=
  match noteToLightMap with
  | [] => 0
  | entry :: rest => (rest.foldl (fun m e => max m e.2) entry.2) + 1

/-- Modelled from the spec: `Concert::getStripSize`. -/
def getStripSize (self : Concert) : Nat := stripSize self.m_noteToLightMap

/-- Modelled from the spec: `Concert::addPatch(IPatch*)`, whose definition is
not among the sources. The patch is appended and its position returned; a patch
that becomes the first entry while no patch is active is activated and becomes
the active patch. -/
def addPatch (self : Concert) (pPatch : IPatch) : Concert × Int :=
  if self.m_patches.isEmpty = true ∧ self.m_activePatch = none then
    ({ self with m_patches := self.m_patches ++ [pPatch.activate],
                 m_activePatch := some self.m_patches.length },
      (self.m_patches.length : Int))
  else
    ({ self with m_patches := self.m_patches ++ [pPatch] }, (self.m_patches.length : Int))

/-- Modelled from the spec: `Concert::addPatch()`, whose definition is not among
the sources. The patch comes from `createPatch` of the factory, given here by
its result; when the factory gives none the invalid position is returned and
nothing changes. -/
def addPatchFromFactory (self : Concert) (createPatch : Option IPatch) : Concert × Int :=
  match createPatch with
  | none => (self, c_invalidPatchPosition)
  | some pPatch => self.addPatch pPatch

/-- Apply `f` to the patch at a position, if there is one. -/
def updatePatch (f : IPatch → IPatch) : Nat → List IPatch → List IPatch
  | _, [] => []
  | 0, p :: ps => f p :: ps
  | i + 1, p :: ps => p :: updatePatch f i ps

/-- Modelled from the spec: the search of `onProgramChange`, in position order,
for the first patch whose bank and program are the given ones. -/
def findPatch (bank program : Nat) : List IPatch → Option Nat
  | [] => none
  | p :: ps =>
    if p.bank = some bank ∧ p.program = some program then some 0
    else (findPatch bank program ps).map (fun i => i + 1)

/-- Modelled from the spec: `Concert::onControlChange`, whose definition is not
among the sources. The callback only queues the event. -/
def onControlChange (self : Concert) (channel controllerNumber value : Nat) : Concert :=
  { self with
    m_scheduler := self.m_scheduler ++ [ScheduledTask.controlChange channel controllerNumber value] }

/-- Modelled from the spec: `Concert::onProgramChange`, whose definition is not
among the sources. The callback only queues the event. -/
def onProgramChange (self : Concert) (channel program : Nat) : Concert :=
  { self with m_scheduler := self.m_scheduler ++ [ScheduledTask.programChange channel program] }

/-- Modelled from the spec: the work queued by `onControlChange`. While
listening, on the program change channel, the bank select LSB sets bits 0 to 6
of the 14-bit `m_currentBank` and the bank select MSB sets bits 7 to 13; every
other event changes nothing. -/
def handleControlChange (self : Concert) (channel controllerNumber value : Nat) : Concert :=
  if self.m_listeningToProgramChange = true ∧ channel = self.m_programChangeChannel then
    if controllerNumber = BANK_SELECT_MSB then
      { self with m_currentBank := ((value &&& 0x7F) <<< 7) ||| (self.m_currentBank &&& 0x7F) }
    else if controllerNumber = BANK_SELECT_LSB then
      { self with m_currentBank := (self.m_currentBank &&& 0x3F80) ||| (value &&& 0x7F) }
    else self
  else self

/-- Modelled from the spec: the work queued by `onProgramChange`. While
listening, on the program change channel, the first patch bound to the current
bank and the received program is looked up; on a match the active patch, if any,
is deactivated and the matched patch activated; without a match nothing changes. -/
def handleProgramChange (self : Concert) (channel program : Nat) : Concert :=
  if self.m_listeningToProgramChange = true ∧ channel = self.m_programChangeChannel then
    match findPatch self.m_currentBank program self.m_patches with
    | none => self
    | some position =>
      let deactivated :=
        match self.m_activePatch with
        | none => self.m_patches
        | some active => updatePatch IPatch.deactivate active self.m_patches
      { self with m_patches := updatePatch IPatch.activate position deactivated,
                  m_activePatch := some position }
  else self

/-- Run one unit of queued work. -/
def runTask (self : Concert) : ScheduledTask → Concert
  | ScheduledTask.controlChange channel controllerNumber value =>
    self.handleControlChange channel controllerNumber value
  | ScheduledTask.programChange channel program => self.handleProgramChange channel program

/-- Modelled from the spec: `Scheduler::runPending` on the queue of the concert:
every queued unit of work runs, in the order of queueing, and the queue is empty
afterwards. -/
def runPending (self : Concert) : Concert :=
  { self.m_scheduler.foldl runTask self with m_scheduler := [] }

/-- Modelled from the spec: `Concert::execute`, whose definition is not among
the sources. The scheduler is drained; then, if there is an active patch, it is
executed on a fresh strip of the derived size and the observers are notified
with the resulting strip, in subscription order. Without an active patch nothing
else happens. -/
def execute (self : Concert) : Concert × ExecuteTrace :=
  let drained := self.runPending
  match drained.m_activePatch with
  | none => (drained, { executed := [], notified := [] })
  | some position =>
    match drained.m_patches[position]? with
    | none => (drained, { executed := [], notified := [] })
    | some pPatch =>
      let strip : TRgbStrip := List.replicate (stripSize drained.m_noteToLightMap) TRgb.new
      let r := pPatch.execute strip drained.m_noteToLightMap
      ({ drained with m_patches := updatePatch (fun _ => r.1) position drained.m_patches },
        { executed := [position], notified := drained.m_observers.map (fun o => (o, r.2)) })

/-- Modelled from the spec: `Concert::getPatch`, whose definition is not among
the sources: the patch at the position, or none for a position that is negative
or not below `size()`. -/
def getPatch (self : Concert) (position : Int) : Option IPatch :=
  if 0 ≤ position ∧ position < (self.m_patches.length : Int) then
    self.m_patches[position.toNat]?
  else none

/-- Modelled from the spec: `Concert::removePatch`, whose definition is not
among the sources. For a position in range the patch is taken out of the
collection, the patches after it move down by one position, and the concert has
no active patch any more if the removed patch was the active one; the result is
true. For a position out of range nothing changes and the result is false. -/
def removePatch (self : Concert) (position : Int) : Concert × Bool :=
  if 0 ≤ position ∧ position < (self.m_patches.length : Int) then
    let active : Option Nat :=
      match self.m_activePatch with
      | none => none
      | some a =>
        if a = position.toNat then none
        else if a > position.toNat then some (a - 1)
        else some a
    ({ self with m_patches := self.m_patches.eraseIdx position.toNat, m_activePatch := active },
      true)
  else (self, false)

/-- Key `Concert::c_isListeningToProgramChangeJsonKey`. -/
def c_isListeningToProgramChangeJsonKey : String := "isListeningToProgramChange"

/-- Key `Concert::c_noteToLightMapJsonKey`. -/
def c_noteToLightMapJsonKey : String := "noteToLightMap"

/-- Key `Concert::c_programChangeChannelJsonKey`. -/
def c_programChangeChannelJsonKey : String := "programChangeChannel"

/-- Key `Concert::c_currentBankJsonKey`. -/
def c_currentBankJsonKey : String := "currentBank"

/-- Key `Concert::c_patchesJsonKey`. -/
def c_patchesJsonKey : String := "patches"

/-- Modelled from the spec: `Concert::convertToJson`, whose definition is not
among the sources. The document is the object with `objectType` "Concert", the
listening flag, the note to light map as an object from note number string to
light index, the program change channel, the current bank and the array of the
patch documents in position order. The document of a patch (`convertToJson` of
`IPatch`) and the string of a note number are parameters. -/
def convertToJson (patchToJson : IPatch → Json Nat) (noteKey : Nat → String)
    (self : Concert) : Json Nat :=
  Json.object
    [("objectType", Json.string "Concert"),
     (c_isListeningToProgramChangeJsonKey, Json.bool self.m_listeningToProgramChange),
     (c_noteToLightMapJsonKey,
       Json.object (self.m_noteToLightMap.map (fun e => (noteKey e.1, Json.number e.2)))),
     (c_programChangeChannelJsonKey, Json.number self.m_programChangeChannel),
     (c_currentBankJsonKey, Json.number self.m_currentBank),
     (c_patchesJsonKey, Json.array (self.m_patches.map patchToJson))]

/-- Modelled from the spec: the decoding of the note to light map, an object
from note number string to light index; members that are not of that form are
left out. The reading of a note number string is a parameter. -/
def noteToLightMapFromJson (parseNoteKey : String → Option Nat) :
    List (String × Json Nat) → TNoteToLightMap
  | [] => []
  | (key, Json.number light) :: rest =>
    match parseNoteKey key with
    | some note => (note, light) :: noteToLightMapFromJson parseNoteKey rest
    | none => noteToLightMapFromJson parseNoteKey rest
  | _ :: rest => noteToLightMapFromJson parseNoteKey rest

/-- Modelled from the spec: `Concert::convertFromJson`, whose definition is not
among the sources. A member that is missing (or not of the expected kind) leaves
the corresponding field as it was. The patches are created by `createPatch` of
the factory from the patch documents, in order; a document for which the factory
gives no patch is left out. The specification does not say which patch is active
after decoding; here none is. -/
def convertFromJson (createPatch : Json Nat → Option IPatch)
    (parseNoteKey : String → Option Nat) (self : Concert) (converted : Json Nat) : Concert :=
  let listening :=
    match converted.get c_isListeningToProgramChangeJsonKey with
    | some (Json.bool b) => b
    | _ => self.m_listeningToProgramChange
  let noteToLightMap :=
    match converted.get c_noteToLightMapJsonKey with
    | some (Json.object members) => noteToLightMapFromJson parseNoteKey members
    | _ => self.m_noteToLightMap
  let channel :=
    match converted.get c_programChangeChannelJsonKey with
    | some (Json.number n) => n
    | _ => self.m_programChangeChannel
  let bank :=
    match converted.get c_currentBankJsonKey with
    | some (Json.number n) => n
    | _ => self.m_currentBank
  match converted.get c_patchesJsonKey with
  | some (Json.array convertedPatches) =>
    { self with m_listeningToProgramChange := listening, m_noteToLightMap := noteToLightMap,
                m_programChangeChannel := channel, m_currentBank := bank,
                m_patches := convertedPatches.filterMap createPatch, m_activePatch := none }
  | _ =>
    { self with m_listeningToProgramChange := listening, m_noteToLightMap := noteToLightMap,
                m_programChangeChannel := channel, m_currentBank := bank }

end Concert

/-! ## Logging entry point (`Common/LoggingEntryPoint.cpp`)

The subscriber list `s_subscribers` is a vector of target pointers; a target is
identified by its address, a value of a type with decidable equality. The mutex
only serialises the calls. -/

namespace LoggingEntryPoint

/-- The search loop of `LoggingEntryPoint::subscribe`: the value of `found`
after the loop. -/
def found {α : Type} [DecidableEq α] : List α → α → Bool
  | [], _ => false
  | pLoggingTarget :: rest, rSubscriber =>
    if pLoggingTarget = rSubscriber then true else found rest rSubscriber

/-- The method `LoggingEntryPoint::subscribe`: the list of subscribers after
the call. -/
def subscribe {α : Type} [DecidableEq α] (s_subscribers : List α) (rSubscriber : α) : List α :=
  if found s_subscribers rSubscriber = false then s_subscribers ++ [rSubscriber]
  else s_subscribers

/-- The method `LoggingEntryPoint::unsubscribe`: `std::remove` moves the
elements different from the target to the front, in order, and `erase` drops the
rest. -/
def unsubscribe {α : Type} [DecidableEq α] : List α → α → List α
  | [], _ => []
  | pLoggingTarget :: rest, rSubscriber =>
    if pLoggingTarget = rSubscriber then unsubscribe rest rSubscriber
    else pLoggingTarget :: unsubscribe rest rSubscriber

/-- A call of `subscribe` or of `unsubscribe` with its target. -/
inductive Call (α : Type) where
  | subscribe (rSubscriber : α)
  | unsubscribe (rSubscriber : α)

/-- The list of subscribers after a sequence of calls. -/
def run {α : Type} [DecidableEq α] (s_subscribers : List α) : List (Call α) → List α
  | [] => s_subscribers
  | Call.subscribe x :: calls => run (subscribe s_subscribers x) calls
  | Call.unsubscribe x :: calls => run (unsubscribe s_subscribers x) calls

end LoggingEntryPoint

/-- A patch without bank and program that leaves the strip as it is, used in
instances of the theorems. -/
def plainPatch (name : String) : IPatch :=
  { name := name, bank := none, program := none, active := false,
    State := Unit, state := (), run := fun st strip _ => (st, strip) }

/-- A patch bound to a bank and a program that leaves the strip as it is, used
in instances of the theorems. -/
def boundPatch (name : String) (bank program : Nat) : IPatch :=
  { name := name, bank := some bank, program := some program, active := false,
    State := Unit, state := (), run := fun st strip _ => (st, strip) }

/-- The concert of the test `patchChangeOnProgramChange` just before the
program change: a plain patch and a patch bound to bank 129 and program 42,
listening on channel 2, with the bank select sequence for bank 129 queued. -/
def patchChangeScenario : Concert :=
  (((((Concert.new.addPatch (plainPatch "first")).1.addPatch
    (boundPatch "second" 129 42)).1.setListeningToProgramChange true).setProgramChangeChannel
    2).onControlChange 2 32 1).onControlChange 2 0 1

/-- The concert of the test `convertToJson`: listening, bank 2, channel 3, the
note to light map `{1:10, 2:20}` and two patches. -/
def roundTripScenario : Concert :=
  { m_noteToLightMap := [(1, 10), (2, 20)],
    m_patches := [(plainPatch "first").activate, plainPatch "second"],
    m_activePatch := some 0, m_listeningToProgramChange := true, m_programChangeChannel := 3,
    m_currentBank := 2, m_scheduler := [], m_observers := [] }

/-- A note number string that is easy to read back, used in instances of the
theorems: the note number in unary. -/
def unaryNoteKey (note : Nat) : String := String.mk (List.replicate note 'n')

/-- The reading of a unary note number string. -/
def parseUnaryNoteKey (key : String) : Option Nat := some key.length

/-- A block that leaves the strip as it is, used in instances of the theorems. -/
def passThroughBlock : IProcessingBlock :=
  { State := Unit, state := (), run := fun st strip => (st, strip) }

/-! # Theorems -/

open BaseMidiInput

/-- Bit facts about a status byte built from the note-on kind and a channel. -/
theorem noteOn_status_bits (c : Nat) (hc : c < 16) :
    (0x90 ||| c) &&& 0x80 = 0x80 ∧ (0x90 ||| c) &&& 0xF0 = 0x90 ∧ (0x90 ||| c) &&& 0x0F = c := by
  interval_cases c <;> decide

/-- Bit facts about a status byte built from the note-off kind and a channel. -/
theorem noteOff_status_bits (c : Nat) (hc : c < 16) :
    (0x80 ||| c) &&& 0x80 = 0x80 ∧ (0x80 ||| c) &&& 0xF0 = 0x80 ∧ (0x80 ||| c) &&& 0x0F = c := by
  interval_cases c <;> decide

/-- Bit facts about a status byte built from the control change kind and a channel. -/
theorem controlChange_status_bits (c : Nat) (hc : c < 16) :
    (0xB0 ||| c) &&& 0x80 = 0x80 ∧ (0xB0 ||| c) &&& 0xF0 = 0xB0 ∧ (0xB0 ||| c) &&& 0x0F = c := by
  interval_cases c <;> decide

/-- Bit facts about a status byte built from the program change kind and a channel. -/
theorem programChange_status_bits (c : Nat) (hc : c < 16) :
    (0xC0 ||| c) &&& 0x80 = 0x80 ∧ (0xC0 ||| c) &&& 0xF0 = 0xC0 ∧ (0xC0 ||| c) &&& 0x0F = c := by
  interval_cases c <;> decide

/-- One byte on an idle parser: a byte without the high bit changes nothing, a
status byte starts a message that holds just that byte, and the parser keeps
building exactly for the four supported kinds. Nothing is sent either way. -/
theorem processMidiByte_idle (buf : List Nat) (b : Nat) :
    processMidiByte ⟨false, buf⟩ b =
      if b &&& 0x80 = 0x80 then
        (⟨decide (b &&& 0xF0 = 0x80 ∨ b &&& 0xF0 = 0x90 ∨ b &&& 0xF0 = 0xB0 ∨ b &&& 0xF0 = 0xC0),
          [b]⟩, [])
      else (⟨false, buf⟩, []) := by
  by_cases h : b &&& 0x80 = 0x80
  · simp only [processMidiByte, h, IMidiInterface.NOTE_OFF, IMidiInterface.NOTE_ON,
      IMidiInterface.CONTROL_CHANGE, IMidiInterface.PROGRAM_CHANGE]
    by_cases h1 : b &&& 0xF0 = 0x80
    · simp [h1]
    · by_cases h2 : b &&& 0xF0 = 0x90
      · simp [h2]
      · by_cases h3 : b &&& 0xF0 = 0xB0
        · simp [h3]
        · by_cases h4 : b &&& 0xF0 = 0xC0
          · simp [h4]
          · simp [h1, h2, h3, h4]
  · simp [processMidiByte, h]

/-- C1: from an idle parser (whatever is left in its buffer) the bytes
`0x90 | c`, `p`, `v` send nothing on the first two bytes and exactly the note
notification `(c, p, v, on = true)` on the third, after which the parser is idle;
with `0x80 | c` the same holds with `on = false`. The velocity plays no part in
the choice between on and off. -/
theorem note_message_parsed (buf : List Nat) (c p v : Nat) (hc : c < 16) :
    (processMidiByte ⟨false, buf⟩ (0x90 ||| c) = (⟨true, [0x90 ||| c]⟩, []) ∧
      processMidiByte ⟨true, [0x90 ||| c]⟩ p = (⟨true, [0x90 ||| c, p]⟩, []) ∧
      processMidiByte ⟨true, [0x90 ||| c, p]⟩ v =
        (⟨false, [0x90 ||| c, p, v]⟩, [MidiEvent.noteOnOff c p v true])) ∧
    (processMidiByte ⟨false, buf⟩ (0x80 ||| c) = (⟨true, [0x80 ||| c]⟩, []) ∧
      processMidiByte ⟨true, [0x80 ||| c]⟩ p = (⟨true, [0x80 ||| c, p]⟩, []) ∧
      processMidiByte ⟨true, [0x80 ||| c, p]⟩ v =
        (⟨false, [0x80 ||| c, p, v]⟩, [MidiEvent.noteOnOff c p v false])) := by
  obtain ⟨a1, a2, a3⟩ := noteOn_status_bits c hc
  obtain ⟨b1, b2, b3⟩ := noteOff_status_bits c hc
  simp [processMidiByte, a1, a2, a3, b1, b2, b3, IMidiInterface.NOTE_OFF, IMidiInterface.NOTE_ON]

/-- C2: from an idle parser the bytes `0xB0 | c`, `n`, `v` send nothing on
the first two bytes and exactly the control change notification `(c, n, v)` on
the third, after which the parser is idle. -/
theorem control_change_message_parsed (buf : List Nat) (c n v : Nat) (hc : c < 16) :
    processMidiByte ⟨false, buf⟩ (0xB0 ||| c) = (⟨true, [0xB0 ||| c]⟩, []) ∧
    processMidiByte ⟨true, [0xB0 ||| c]⟩ n = (⟨true, [0xB0 ||| c, n]⟩, []) ∧
    processMidiByte ⟨true, [0xB0 ||| c, n]⟩ v =
      (⟨false, [0xB0 ||| c, n, v]⟩, [MidiEvent.controlChange c n v]) := by
  obtain ⟨a1, a2, a3⟩ := controlChange_status_bits c hc
  simp [processMidiByte, a1, a2, a3, IMidiInterface.NOTE_OFF, IMidiInterface.NOTE_ON,
    IMidiInterface.CONTROL_CHANGE]

/-- C3: from an idle parser the bytes `0xC0 | c`, `n` send nothing on the first
byte and exactly the program change notification `(c, n)` on the second, after
which the parser is idle. A third byte `b` is not taken into this message: it
sends nothing, and it leaves the parser either in the state a fresh parser reaches
on `b` (when `b` is a status byte) or as it was. -/
theorem program_change_message_parsed (buf : List Nat) (c n b : Nat) (hc : c < 16) :
    processMidiByte ⟨false, buf⟩ (0xC0 ||| c) = (⟨true, [0xC0 ||| c]⟩, []) ∧
    processMidiByte ⟨true, [0xC0 ||| c]⟩ n =
      (⟨false, [0xC0 ||| c, n]⟩, [MidiEvent.programChange c n]) ∧
    (processMidiByte ⟨false, [0xC0 ||| c, n]⟩ b).2 = [] ∧
    (processMidiByte ⟨false, [0xC0 ||| c, n]⟩ b).1 =
      if b &&& 0x80 = 0x80 then (processMidiByte BaseMidiInput.new b).1
      else ⟨false, [0xC0 ||| c, n]⟩ := by
  obtain ⟨a1, a2, a3⟩ := programChange_status_bits c hc
  refine ⟨?_, ?_, ?_, ?_⟩
  · simp [processMidiByte, a1, a2, a3, IMidiInterface.NOTE_OFF, IMidiInterface.NOTE_ON,
      IMidiInterface.CONTROL_CHANGE, IMidiInterface.PROGRAM_CHANGE]
  · simp [processMidiByte, a1, a2, a3, IMidiInterface.NOTE_OFF, IMidiInterface.NOTE_ON,
      IMidiInterface.CONTROL_CHANGE, IMidiInterface.PROGRAM_CHANGE]
  · rw [processMidiByte_idle]; split <;> rfl
  · rw [BaseMidiInput.new, processMidiByte_idle, processMidiByte_idle]
    split <;> rfl

/-- A run of bytes without the high bit leaves an idle parser as it is and
sends nothing. -/
theorem processMidiBytes_idle_data (buf : List Nat) (ds : List Nat)
    (hds : ∀ d ∈ ds, d &&& 0x80 = 0) :
    processMidiBytes ⟨false, buf⟩ ds = (⟨false, buf⟩, []) := by
  induction ds with
  | nil => rfl
  | cons d ds ih =>
    have hd : ¬ d &&& 0x80 = 0x80 := by
      rw [hds d (List.mem_cons_self d ds)]; decide
    have ih1 := ih (fun x hx => hds x (List.mem_cons_of_mem d hx))
    simp only [processMidiBytes, processMidiByte_idle, if_neg hd, ih1, List.append_nil]

/-- C4 (as amended): while a note-off, note-on, control change or program
change message is incomplete, a status byte `b` is stored as the next data byte
of that message. After the status byte `s` alone, a program change is completed
by `b` and reports `b` as the program; the other kinds keep building with buffer
`[s, b]`. After `s` and one data byte `d`, the message is completed by `b` and
reports `b` as the velocity or the value. The parser is idle exactly when the
byte count of the kind is reached. -/
theorem status_byte_mid_message_is_data (s d b : Nat)
    (hk : s &&& 0xF0 = 0x80 ∨ s &&& 0xF0 = 0x90 ∨ s &&& 0xF0 = 0xB0 ∨ s &&& 0xF0 = 0xC0)
    (_hb : b &&& 0x80 = 0x80) :
    if s &&& 0xF0 = 0xC0 then
      processMidiByte ⟨true, [s]⟩ b =
        (⟨false, [s, b]⟩, [MidiEvent.programChange (s &&& 0x0F) b])
    else
      processMidiByte ⟨true, [s]⟩ b = (⟨true, [s, b]⟩, []) ∧
      processMidiByte ⟨true, [s, d]⟩ b =
        (⟨false, [s, d, b]⟩,
          [if s &&& 0xF0 = 0xB0 then MidiEvent.controlChange (s &&& 0x0F) d b
           else MidiEvent.noteOnOff (s &&& 0x0F) d b (decide (s &&& 0xF0 = 0x90))]) := by
  rcases hk with h | h | h | h <;>
    simp [processMidiByte, h, IMidiInterface.NOTE_OFF, IMidiInterface.NOTE_ON,
      IMidiInterface.CONTROL_CHANGE, IMidiInterface.PROGRAM_CHANGE]

/-- C5: a status byte of an unsupported kind (high nibble other than `0x8`,
`0x9`, `0xB`, `0xC`) on an idle parser sends nothing and leaves the parser idle,
and the bytes without the high bit that follow send nothing either. -/
theorem unsupported_status_discarded (buf : List Nat) (s : Nat) (ds : List Nat)
    (hs : s &&& 0x80 = 0x80)
    (hk : s &&& 0xF0 ≠ 0x80 ∧ s &&& 0xF0 ≠ 0x90 ∧ s &&& 0xF0 ≠ 0xB0 ∧ s &&& 0xF0 ≠ 0xC0)
    (hds : ∀ d ∈ ds, d &&& 0x80 = 0) :
    processMidiByte ⟨false, buf⟩ s = (⟨false, [s]⟩, []) ∧
    processMidiBytes (processMidiByte ⟨false, buf⟩ s).1 ds = (⟨false, [s]⟩, []) ∧
    (processMidiBytes ⟨false, buf⟩ (s :: ds)).2 = [] := by
  have h1 : processMidiByte ⟨false, buf⟩ s = (⟨false, [s]⟩, []) := by
    rw [processMidiByte_idle, if_pos hs]
    simp [hk.1, hk.2.1, hk.2.2.1, hk.2.2.2]
  refine ⟨h1, ?_, ?_⟩
  · rw [h1]; exact processMidiBytes_idle_data [s] ds hds
  · simp only [processMidiBytes, h1, processMidiBytes_idle_data [s] ds hds, List.append_nil]

/-- C6: a byte without the high bit on an idle parser sends nothing and leaves
both the building flag and the message buffer as they were. -/
theorem data_byte_ignored_when_idle (buf : List Nat) (b : Nat) (hb : b &&& 0x80 = 0) :
    processMidiByte ⟨false, buf⟩ b = (⟨false, buf⟩, []) := by
  have h : ¬ b &&& 0x80 = 0x80 := by rw [hb]; decide
  rw [processMidiByte_idle, if_neg h]

/-- The loop of `execute` on a chain without null pointers always finishes, and
the strip it leaves is the left fold of the blocks over the strip. -/
theorem executeLoop_strip (bs : List IProcessingBlock) (strip : TRgbStrip) :
    (ProcessingChain.executeLoop (bs.map some) strip).map Prod.snd =
      some (bs.foldl (fun s b => (b.execute s).2) strip) := by
  induction bs generalizing strip with
  | nil => rfl
  | cons b bs ih =>
    have h := ih (b.execute strip).2
    cases hr : ProcessingChain.executeLoop (bs.map some) (b.execute strip).2 with
    | none => rw [hr] at h; simp at h
    | some r =>
      rw [hr] at h
      simpa [ProcessingChain.executeLoop, hr] using h

/-- C7: `execute` on a chain of blocks `b0, ..., bn-1` returns, and the strip
it leaves is `bn-1(...(b1(b0(strip)))...)`, each block being applied to the strip
its predecessor left; for the chain `A, B` this is `B(A(strip))`, and the empty chain
leaves the strip as it was. -/
theorem execute_is_pipeline (bs : List IProcessingBlock) (A B : IProcessingBlock)
    (strip : TRgbStrip) :
    (ProcessingChain.execute ⟨bs.map some⟩ strip).map Prod.snd =
      some (bs.foldl (fun s b => (b.execute s).2) strip) ∧
    (ProcessingChain.execute ⟨[some A, some B]⟩ strip).map Prod.snd =
      some (B.execute (A.execute strip).2).2 ∧
    (ProcessingChain.execute ⟨[]⟩ strip).map Prod.snd = some strip := by
  have key : ∀ cs : List IProcessingBlock,
      (ProcessingChain.execute ⟨cs.map some⟩ strip).map Prod.snd =
        some (cs.foldl (fun s b => (b.execute s).2) strip) := by
    intro cs
    have h := executeLoop_strip cs strip
    simp only [ProcessingChain.execute, Option.map_map]
    exact h
  exact ⟨key bs, key [A, B], key []⟩

/-- The library insertion at a position within the vector puts the new element
between the first `i` elements and the rest. -/
theorem vectorInsert_of_le {α : Type u} (xs : List α) (i : Nat) (x : α) (h : i ≤ xs.length) :
    vectorInsert xs i x = some (xs.take i ++ x :: xs.drop i) := by
  induction xs generalizing i with
  | nil =>
    have hi : i = 0 := by simpa using h
    subst hi; rfl
  | cons y ys ih =>
    cases i with
    | zero => rfl
    | succ j =>
      have hj : j ≤ ys.length := by simpa using h
      simp [vectorInsert, ih j hj]

/-- C8: `insertBlock(block, index)` on a chain of length `n` always succeeds
and, with `k = min index n`, gives the first `k` old blocks, the new block, then
the other `n - k` old blocks; the length becomes `n + 1`, and taking the new block
out again gives back the old chain. -/
theorem insertBlock_clamps_index (chain : ProcessingChain) (pBlock : Option IProcessingBlock)
    (index : Nat) :
    chain.insertBlock pBlock index =
      some ⟨chain.m_processingChain.take (min index chain.m_processingChain.length) ++
        pBlock :: chain.m_processingChain.drop (min index chain.m_processingChain.length)⟩ ∧
    (chain.m_processingChain.take (min index chain.m_processingChain.length)).length =
      min index chain.m_processingChain.length ∧
    (chain.m_processingChain.drop (min index chain.m_processingChain.length)).length =
      chain.m_processingChain.length - min index chain.m_processingChain.length ∧
    (chain.m_processingChain.take (min index chain.m_processingChain.length) ++
        pBlock :: chain.m_processingChain.drop (min index chain.m_processingChain.length)).length =
      chain.m_processingChain.length + 1 ∧
    (chain.m_processingChain.take (min index chain.m_processingChain.length) ++
        pBlock :: chain.m_processingChain.drop (min index chain.m_processingChain.length)).eraseIdx
        (min index chain.m_processingChain.length) = chain.m_processingChain := by
  have hk : min index chain.m_processingChain.length ≤ chain.m_processingChain.length :=
    Nat.min_le_right _ _
  have hclamp : (if index > chain.m_processingChain.length then chain.m_processingChain.length
      else index) = min index chain.m_processingChain.length := by
    split <;> omega
  refine ⟨?_, ?_, ?_, ?_, ?_⟩
  · simp only [ProcessingChain.insertBlock, hclamp, vectorInsert_of_le _ _ _ hk, Option.map_some']
  · simp
  · simp
  · simp; omega
  · rw [List.eraseIdx_append_of_length_le (by simp)]
    simp

/-- C9: for a note that is not sounding `calculate` returns the colour with
red, green and blue all zero, whatever the velocity, the six constants and the
time (and whatever the conversion helper does). -/
theorem calculate_not_sounding {F : Type} [Mul F] [Add F] [NatCast F]
    (rgbFromFloat : F → F → F → TRgb) (self : LinearRgbFunction F)
    (pressDownVelocity : Nat) (currentTime : TTime) :
    self.calculate rgbFromFloat ⟨false, pressDownVelocity⟩ currentTime = ⟨0, 0, 0⟩ := by
  simp [LinearRgbFunction.calculate, TRgb.new]

/-- C10: for a sounding note `calculate` hands to the conversion helper, for
each channel, exactly `factor * pressDownVelocity + offset` with the constants of
that channel, and returns what the helper returns: the function itself does not
clamp or otherwise change the three values. -/
theorem calculate_sounding_linear {F : Type} [Mul F] [Add F] [NatCast F]
    (rgbFromFloat : F → F → F → TRgb) (self : LinearRgbFunction F)
    (noteState : TNoteState) (currentTime : TTime) (h : noteState.sounding = true) :
    self.calculate rgbFromFloat noteState currentTime =
      rgbFromFloat
        (self.m_redConstants.factor * (noteState.pressDownVelocity : F) +
          self.m_redConstants.offset)
        (self.m_greenConstants.factor * (noteState.pressDownVelocity : F) +
          self.m_greenConstants.offset)
        (self.m_blueConstants.factor * (noteState.pressDownVelocity : F) +
          self.m_blueConstants.offset) := by
  simp [LinearRgbFunction.calculate, h]

/-! ## Instances of the theorems at concrete inputs -/

/-- Instance of C1: note-on and note-off on channel 3, pitch 60, velocity 0. -/
theorem note_message_parsed_witness :
    (3 < 16) ∧
    processMidiByte ⟨true, [0x93, 60]⟩ 0 =
      (⟨false, [0x93, 60, 0]⟩, [MidiEvent.noteOnOff 3 60 0 true]) ∧
    processMidiByte ⟨true, [0x83, 60]⟩ 0 =
      (⟨false, [0x83, 60, 0]⟩, [MidiEvent.noteOnOff 3 60 0 false]) :=
  ⟨by decide, (note_message_parsed [] 3 60 0 (by decide)).1.2.2,
    (note_message_parsed [] 3 60 0 (by decide)).2.2.2⟩

/-- Instance of C2: damper pedal (controller 64) on channel 1 with value 127. -/
theorem control_change_message_parsed_witness :
    (1 < 16) ∧
    processMidiByte ⟨true, [0xB1, 64]⟩ 127 =
      (⟨false, [0xB1, 64, 127]⟩, [MidiEvent.controlChange 1 64 127]) :=
  ⟨by decide, (control_change_message_parsed [] 1 64 127 (by decide)).2.2⟩

/-- Instance of C3: program 5 on channel 2, followed by the byte `0x40`. -/
theorem program_change_message_parsed_witness :
    (2 < 16) ∧
    processMidiByte ⟨true, [0xC2]⟩ 5 = (⟨false, [0xC2, 5]⟩, [MidiEvent.programChange 2 5]) ∧
    (processMidiByte ⟨false, [0xC2, 5]⟩ 0x40).2 = [] ∧
    (processMidiByte ⟨false, [0xC2, 5]⟩ 0x40).1 = ⟨false, [0xC2, 5]⟩ :=
  ⟨by decide, (program_change_message_parsed [] 2 5 0x40 (by decide)).2.1,
    (program_change_message_parsed [] 2 5 0x40 (by decide)).2.2.1,
    (program_change_message_parsed [] 2 5 0x40 (by decide)).2.2.2⟩

/-- C4 fails as stated: with the note-on `0x90` in progress the status byte
`0x80` neither drops the message nor makes the parser idle, and the next byte
completes a note-on whose pitch is the status byte `0x80`; with the program change
`0xC0` in progress the status byte `0x90` is reported as the program. -/
theorem status_byte_mid_message_counterexample :
    processMidiByte BaseMidiInput.new 0x90 = (⟨true, [0x90]⟩, []) ∧
    0x80 &&& 0x80 = 0x80 ∧
    processMidiByte ⟨true, [0x90]⟩ 0x80 = (⟨true, [0x90, 0x80]⟩, []) ∧
    (processMidiByte ⟨true, [0x90]⟩ 0x80).1.m_buildingMessage ≠ false ∧
    processMidiByte ⟨true, [0x90, 0x80]⟩ 5 =
      (⟨false, [0x90, 0x80, 5]⟩, [MidiEvent.noteOnOff 0 0x80 5 true]) ∧
    processMidiBytes BaseMidiInput.new [0xC0, 0x90] =
      (⟨false, [0xC0, 0x90]⟩, [MidiEvent.programChange 0 0x90]) := by
  decide

/-- Instance of C4 (as amended): note-on `0x90` with data byte 60, and the
status byte `0x80` arriving as the third byte. -/
theorem status_byte_mid_message_is_data_witness :
    (0x90 &&& 0xF0 = 0x80 ∨ 0x90 &&& 0xF0 = 0x90 ∨ 0x90 &&& 0xF0 = 0xB0 ∨
      0x90 &&& 0xF0 = 0xC0) ∧
    0x80 &&& 0x80 = 0x80 ∧
    processMidiByte ⟨true, [0x90, 60]⟩ 0x80 =
      (⟨false, [0x90, 60, 0x80]⟩, [MidiEvent.noteOnOff 0 60 0x80 true]) :=
  ⟨by decide, by decide,
    (status_byte_mid_message_is_data 0x90 60 0x80 (by decide) (by decide)).2⟩

/-- Instance of C5: a pitch bend status `0xE3` followed by two data bytes. -/
theorem unsupported_status_discarded_witness :
    0xE3 &&& 0x80 = 0x80 ∧
    (0xE3 &&& 0xF0 ≠ 0x80 ∧ 0xE3 &&& 0xF0 ≠ 0x90 ∧ 0xE3 &&& 0xF0 ≠ 0xB0 ∧
      0xE3 &&& 0xF0 ≠ 0xC0) ∧
    (∀ d ∈ [0x12, 0x34], d &&& 0x80 = 0) ∧
    (processMidiBytes BaseMidiInput.new [0xE3, 0x12, 0x34]).2 = [] :=
  ⟨by decide, by decide, by decide,
    (unsupported_status_discarded [] 0xE3 [0x12, 0x34] (by decide) (by decide)
      (by decide)).2.2⟩

/-- Instance of C6: the byte `0x45` on an idle parser that still holds an old
message. -/
theorem data_byte_ignored_when_idle_witness :
    0x45 &&& 0x80 = 0 ∧
    processMidiByte ⟨false, [0x90, 60, 100]⟩ 0x45 = (⟨false, [0x90, 60, 100]⟩, []) :=
  ⟨by decide, data_byte_ignored_when_idle [0x90, 60, 100] 0x45 (by decide)⟩

/-- Instance of C10 over the integers, with a helper that converts without
clamping: factor 2, velocity 100, offset 10 give red 210, and blue is 305. -/
theorem calculate_sounding_linear_witness :
    (⟨true, 100⟩ : TNoteState).sounding = true ∧
    LinearRgbFunction.calculate (fun r g b : Int => ⟨r.toNat, g.toNat, b.toNat⟩)
      ⟨⟨2, 10⟩, ⟨1, 0⟩, ⟨3, 5⟩⟩ ⟨true, 100⟩ 0 = ⟨210, 100, 305⟩ :=
  ⟨rfl, calculate_sounding_linear (fun r g b : Int => ⟨r.toNat, g.toNat, b.toNat⟩)
      ⟨⟨2, 10⟩, ⟨1, 0⟩, ⟨3, 5⟩⟩ ⟨true, 100⟩ 0 rfl⟩

/-! ## JSON conversion of the processing chain and of the linear RGB function -/

/-- An object has a key counted exactly when the key can be read. -/
theorem Json.count_eq_zero_iff {F : Type} (j : Json F) (key : String) :
    j.count key = 0 ↔ j.get key = none := by
  cases j <;> simp [Json.count, Json.get]
  rename_i members
  cases h : Json.lookupMember key members <;> simp

/-- A key that can be read is counted. -/
theorem Json.count_pos_of_get {F : Type} (j : Json F) (key : String) (v : Json F)
    (h : j.get key = some v) : j.count key > 0 := by
  have h0 : j.count key ≠ 0 := by
    intro hc
    rw [(Json.count_eq_zero_iff j key).mp hc] at h
    exact Option.noConfusion h
  omega

/-- The loop of `ProcessingChain::convertFromJson` appends the factory result of
every block object, in order. -/
theorem foldl_push_back {α β : Type _} (f : α → β) (items : List α) (acc : List β) :
    items.foldl (fun chain x => chain ++ [f x]) acc = acc ++ items.map f := by
  induction items generalizing acc with
  | nil => simp
  | cons x xs ih => simp [ih]

/-- C11 fails as stated: a chain that holds one block is empty after
`convertFromJson` with a document that has no `processingChain` key. -/
theorem convertFromJson_missing_key_counterexample :
    (Json.object [] : Json Int).count ProcessingChain.c_processingChainJsonKey = 0 ∧
    (⟨[some passThroughBlock]⟩ : ProcessingChain).m_processingChain.length = 1 ∧
    (ProcessingChain.convertFromJson (fun _ => some passThroughBlock)
        ⟨[some passThroughBlock]⟩ (Json.object [] : Json Int)).map
      (fun chain => chain.m_processingChain.length) = some 0 := by
  refine ⟨rfl, rfl, rfl⟩

/-- C11 (as amended): `convertFromJson` with a document that has no
`processingChain` key returns and leaves the chain empty, whatever blocks it
held before and whatever the factory is. -/
theorem convertFromJson_missing_key_clears {F : Type}
    (createProcessingBlock : Json F → Option IProcessingBlock)
    (self : ProcessingChain) (converted : Json F)
    (h : converted.count ProcessingChain.c_processingChainJsonKey = 0) :
    ProcessingChain.convertFromJson createProcessingBlock self converted =
      some { m_processingChain := [] } := by
  simp [ProcessingChain.convertFromJson, h]

/-- C12 fails as stated: with a factory that produces no block, the document
with one block object gives a chain of length 1 whose only entry is a null
pointer. -/
theorem convertFromJson_null_block_counterexample :
    (ProcessingChain.convertFromJson (fun _ => none) ⟨[]⟩
        (Json.object [("processingChain", Json.array [Json.null])] : Json Int)).map
      (fun chain => chain.m_processingChain.map Option.isSome) = some [false] := by
  rfl

/-- C12 (as amended): for a document whose `processingChain` member is an
array, `convertFromJson` returns the chain of the results of
`createProcessingBlock` for all block objects, in document order, a null result
being kept as a null entry; its length is the number of block objects. -/
theorem convertFromJson_keeps_every_result {F : Type}
    (createProcessingBlock : Json F → Option IProcessingBlock)
    (self : ProcessingChain) (converted : Json F) (convertedChain : List (Json F))
    (h : converted.get ProcessingChain.c_processingChainJsonKey =
      some (Json.array convertedChain)) :
    ProcessingChain.convertFromJson createProcessingBlock self converted =
      some { m_processingChain := convertedChain.map createProcessingBlock } ∧
    (convertedChain.map createProcessingBlock).length = convertedChain.length := by
  have hc := Json.count_pos_of_get converted _ _ h
  simp [ProcessingChain.convertFromJson, hc, h, Json.toVector, foldl_push_back]

/-- One step of `LinearRgbFunction::convertFromJson`: it returns when the key is
absent or holds a number, and the field keeps its value in the first case and
takes the number in the second. -/
theorem readMember_spec {F : Type} (json : Json F) (key : String) (field : F)
    (h : json.count key = 0 ∨ ∃ x, json.get key = some (Json.number x)) :
    ∃ v, LinearRgbFunction.readMember json key field = some v ∧
      (json.count key = 0 → v = field) ∧
      (∀ x, json.get key = some (Json.number x) → v = x) := by
  rcases h with h0 | ⟨x, hx⟩
  · refine ⟨field, by simp [LinearRgbFunction.readMember, h0], fun _ => rfl, ?_⟩
    intro x hx
    rw [(Json.count_eq_zero_iff json key).mp h0] at hx
    exact Option.noConfusion hx
  · have hc := Json.count_pos_of_get json key _ hx
    refine ⟨x, by simp [LinearRgbFunction.readMember, hc, hx, Json.toFloat], ?_, ?_⟩
    · intro h0; omega
    · intro y hy
      rw [hx] at hy
      cases hy
      rfl

/-- C13: `convertFromJson` of the linear RGB function is a partial update. For
a document in which each of the six keys is absent or holds a number the call
returns, and in the result each constant keeps its prior value when its key is
absent and is the number of the document when its key is present; each constant
depends on its own key only, and a document with none of the six keys gives
back the function unchanged. -/
theorem convertFromJson_partial_update {F : Type} (self : LinearRgbFunction F) (json : Json F)
    (h : ∀ key ∈ [LinearRgbFunction.c_rFactorJsonKey, LinearRgbFunction.c_gFactorJsonKey,
        LinearRgbFunction.c_bFactorJsonKey, LinearRgbFunction.c_rOffsetJsonKey,
        LinearRgbFunction.c_gOffsetJsonKey, LinearRgbFunction.c_bOffsetJsonKey],
      json.count key = 0 ∨ ∃ x, json.get key = some (Json.number x)) :
    ∃ r, self.convertFromJson json = some r ∧
      ((json.count LinearRgbFunction.c_rFactorJsonKey = 0 →
          r.m_redConstants.factor = self.m_redConstants.factor) ∧
        (∀ x, json.get LinearRgbFunction.c_rFactorJsonKey = some (Json.number x) →
          r.m_redConstants.factor = x)) ∧
      ((json.count LinearRgbFunction.c_gFactorJsonKey = 0 →
          r.m_greenConstants.factor = self.m_greenConstants.factor) ∧
        (∀ x, json.get LinearRgbFunction.c_gFactorJsonKey = some (Json.number x) →
          r.m_greenConstants.factor = x)) ∧
      ((json.count LinearRgbFunction.c_bFactorJsonKey = 0 →
          r.m_blueConstants.factor = self.m_blueConstants.factor) ∧
        (∀ x, json.get LinearRgbFunction.c_bFactorJsonKey = some (Json.number x) →
          r.m_blueConstants.factor = x)) ∧
      ((json.count LinearRgbFunction.c_rOffsetJsonKey = 0 →
          r.m_redConstants.offset = self.m_redConstants.offset) ∧
        (∀ x, json.get LinearRgbFunction.c_rOffsetJsonKey = some (Json.number x) →
          r.m_redConstants.offset = x)) ∧
      ((json.count LinearRgbFunction.c_gOffsetJsonKey = 0 →
          r.m_greenConstants.offset = self.m_greenConstants.offset) ∧
        (∀ x, json.get LinearRgbFunction.c_gOffsetJsonKey = some (Json.number x) →
          r.m_greenConstants.offset = x)) ∧
      ((json.count LinearRgbFunction.c_bOffsetJsonKey = 0 →
          r.m_blueConstants.offset = self.m_blueConstants.offset) ∧
        (∀ x, json.get LinearRgbFunction.c_bOffsetJsonKey = some (Json.number x) →
          r.m_blueConstants.offset = x)) ∧
      ((∀ key ∈ [LinearRgbFunction.c_rFactorJsonKey, LinearRgbFunction.c_gFactorJsonKey,
          LinearRgbFunction.c_bFactorJsonKey, LinearRgbFunction.c_rOffsetJsonKey,
          LinearRgbFunction.c_gOffsetJsonKey, LinearRgbFunction.c_bOffsetJsonKey],
        json.count key = 0) → r = self) := by
  obtain ⟨v1, e1, a1, p1⟩ := readMember_spec json _ self.m_redConstants.factor
    (h LinearRgbFunction.c_rFactorJsonKey (by simp))
  obtain ⟨v2, e2, a2, p2⟩ := readMember_spec json _ self.m_greenConstants.factor
    (h LinearRgbFunction.c_gFactorJsonKey (by simp))
  obtain ⟨v3, e3, a3, p3⟩ := readMember_spec json _ self.m_blueConstants.factor
    (h LinearRgbFunction.c_bFactorJsonKey (by simp))
  obtain ⟨v4, e4, a4, p4⟩ := readMember_spec json _ self.m_redConstants.offset
    (h LinearRgbFunction.c_rOffsetJsonKey (by simp))
  obtain ⟨v5, e5, a5, p5⟩ := readMember_spec json _ self.m_greenConstants.offset
    (h LinearRgbFunction.c_gOffsetJsonKey (by simp))
  obtain ⟨v6, e6, a6, p6⟩ := readMember_spec json _ self.m_blueConstants.offset
    (h LinearRgbFunction.c_bOffsetJsonKey (by simp))
  refine ⟨⟨⟨v1, v4⟩, ⟨v2, v5⟩, ⟨v3, v6⟩⟩, ?_, ⟨a1, p1⟩, ⟨a2, p2⟩, ⟨a3, p3⟩, ⟨a4, p4⟩,
    ⟨a5, p5⟩, ⟨a6, p6⟩, ?_⟩
  · simp [LinearRgbFunction.convertFromJson, e1, e2, e3, e4, e5, e6]
  · intro hnone
    rw [a1 (hnone LinearRgbFunction.c_rFactorJsonKey (by simp)), a2 (hnone LinearRgbFunction.c_gFactorJsonKey (by simp)),
      a3 (hnone LinearRgbFunction.c_bFactorJsonKey (by simp)),
      a4 (hnone LinearRgbFunction.c_rOffsetJsonKey (by simp)),
      a5 (hnone LinearRgbFunction.c_gOffsetJsonKey (by simp)),
      a6 (hnone LinearRgbFunction.c_bOffsetJsonKey (by simp))]

/-- C14: decoding the document `convertToJson(f)` into any function `g` returns,
and the six constants of the result (factor and offset of red, green and blue)
are those of `f`. -/
theorem linear_rgb_round_trip {F : Type} (typeName : String) (f g : LinearRgbFunction F) :
    ∃ r, g.convertFromJson (f.convertToJson typeName) = some r ∧
      r.m_redConstants.factor = f.m_redConstants.factor ∧
      r.m_redConstants.offset = f.m_redConstants.offset ∧
      r.m_greenConstants.factor = f.m_greenConstants.factor ∧
      r.m_greenConstants.offset = f.m_greenConstants.offset ∧
      r.m_blueConstants.factor = f.m_blueConstants.factor ∧
      r.m_blueConstants.offset = f.m_blueConstants.offset := by
  refine ⟨f, ?_, rfl, rfl, rfl, rfl, rfl, rfl⟩
  simp [LinearRgbFunction.convertFromJson, LinearRgbFunction.convertToJson,
    LinearRgbFunction.readMember, Json.setMember, Json.count, Json.get, Json.lookupMember,
    Json.toFloat, LinearRgbFunction.c_objectTypeKey, LinearRgbFunction.c_rFactorJsonKey,
    LinearRgbFunction.c_gFactorJsonKey, LinearRgbFunction.c_bFactorJsonKey,
    LinearRgbFunction.c_rOffsetJsonKey, LinearRgbFunction.c_gOffsetJsonKey,
    LinearRgbFunction.c_bOffsetJsonKey]

/-- Instance of C11 (as amended): a chain with one block and the empty object. -/
theorem convertFromJson_missing_key_clears_witness :
    (Json.object [] : Json Int).count ProcessingChain.c_processingChainJsonKey = 0 ∧
    ProcessingChain.convertFromJson (fun _ => some passThroughBlock)
      ⟨[some passThroughBlock]⟩ (Json.object [] : Json Int) = some ⟨[]⟩ :=
  ⟨rfl, convertFromJson_missing_key_clears (fun _ => some passThroughBlock)
    ⟨[some passThroughBlock]⟩ (Json.object []) rfl⟩

/-- Instance of C12 (as amended): two block objects, of which the factory
produces a block for the number only. -/
theorem convertFromJson_keeps_every_result_witness :
    (Json.object [("processingChain", Json.array [Json.null, Json.number 1])] : Json Int).get
        ProcessingChain.c_processingChainJsonKey =
      some (Json.array [Json.null, Json.number 1]) ∧
    (ProcessingChain.convertFromJson
        (fun j => match j with
          | Json.number _ => some passThroughBlock
          | _ => none)
        ⟨[]⟩
        (Json.object [("processingChain", Json.array [Json.null, Json.number 1])] : Json Int)).map
      (fun chain => chain.m_processingChain.map Option.isSome) = some [false, true] :=
  ⟨rfl, by
    rw [(convertFromJson_keeps_every_result _ ⟨[]⟩
      (Json.object [("processingChain", Json.array [Json.null, Json.number 1])] : Json Int)
      [Json.null, Json.number 1] rfl).1]
    rfl⟩

/-- Instance of C13: a document with `rFactor` 50 and `bOffset` 70 only. -/
theorem convertFromJson_partial_update_witness :
    ∃ r, (⟨⟨1, 2⟩, ⟨3, 4⟩, ⟨5, 6⟩⟩ : LinearRgbFunction Int).convertFromJson
        (Json.object [("rFactor", Json.number 50), ("bOffset", Json.number 70)]) = some r ∧
      r.m_redConstants.factor = 50 ∧ r.m_blueConstants.offset = 70 ∧
      r.m_greenConstants.factor = 3 := by
  have hdoc : ∀ key ∈ [LinearRgbFunction.c_rFactorJsonKey, LinearRgbFunction.c_gFactorJsonKey,
        LinearRgbFunction.c_bFactorJsonKey, LinearRgbFunction.c_rOffsetJsonKey,
        LinearRgbFunction.c_gOffsetJsonKey, LinearRgbFunction.c_bOffsetJsonKey],
      (Json.object [("rFactor", Json.number 50), ("bOffset", Json.number 70)] : Json Int).count
          key = 0 ∨
        ∃ x, (Json.object [("rFactor", Json.number 50), ("bOffset", Json.number 70)] :
          Json Int).get key = some (Json.number x) := by
    intro key hk
    simp only [List.mem_cons, List.mem_singleton, List.mem_nil_iff, or_false] at hk
    rcases hk with rfl | rfl | rfl | rfl | rfl | rfl <;>
      first
        | exact Or.inl rfl
        | exact Or.inr ⟨_, rfl⟩
  obtain ⟨r, hr, ⟨_, p1⟩, ⟨a2, _⟩, _, _, _, ⟨_, p6⟩, _⟩ :=
    convertFromJson_partial_update (⟨⟨1, 2⟩, ⟨3, 4⟩, ⟨5, 6⟩⟩ : LinearRgbFunction Int)
      (Json.object [("rFactor", Json.number 50), ("bOffset", Json.number 70)]) hdoc
  exact ⟨r, hr, p1 50 rfl, p6 70 rfl, a2 rfl⟩

/-! ## Concert -/

/-- The running maximum of the light indices is at least its start value and at
least every light index folded in, and it is one of them. -/
theorem foldl_max_spec (rest : TNoteToLightMap) (start : Nat) :
    start ≤ rest.foldl (fun m e => max m e.2) start ∧
    (∀ e ∈ rest, e.2 ≤ rest.foldl (fun m e => max m e.2) start) ∧
    (rest.foldl (fun m e => max m e.2) start = start ∨
      ∃ e ∈ rest, e.2 = rest.foldl (fun m e => max m e.2) start) := by
  induction rest generalizing start with
  | nil => simp
  | cons x xs ih =>
    obtain ⟨h1, h2, h3⟩ := ih (max start x.2)
    simp only [List.foldl_cons, List.mem_cons]
    refine ⟨le_trans (le_max_left _ _) h1, ?_, ?_⟩
    · intro e he
      rcases he with rfl | he
      · exact le_trans (le_max_right _ _) h1
      · exact h2 e he
    · rcases h3 with h3 | ⟨e, he, hv⟩
      · rcases le_total start x.2 with hle | hle
        · right
          exact ⟨x, Or.inl rfl, by rw [h3, max_eq_right hle]⟩
        · left
          rw [h3, max_eq_left hle]
      · right
        exact ⟨e, Or.inr he, hv⟩

/-- C19: the derived strip size is 0 for the empty note to light map; for a
map with entries it exceeds every light index of the map and is the light index
of some entry plus one, that is the largest light index plus one. For the map
`{0:42, 1:6, 2:7}` it is 43 and for `{1:10, 2:20}` it is 21. -/
theorem stripSize_is_max_plus_one (entry : Nat × Nat) (rest : TNoteToLightMap) :
    Concert.stripSize [] = 0 ∧
    (∀ e ∈ entry :: rest, e.2 < Concert.stripSize (entry :: rest)) ∧
    (∃ e ∈ entry :: rest, e.2 + 1 = Concert.stripSize (entry :: rest)) ∧
    (Concert.new.setNoteToLightMap [(0, 42), (1, 6), (2, 7)]).getStripSize = 43 ∧
    (Concert.new.setNoteToLightMap [(1, 10), (2, 20)]).getStripSize = 21 := by
  obtain ⟨h1, h2, h3⟩ := foldl_max_spec rest entry.2
  refine ⟨rfl, ?_, ?_, rfl, rfl⟩
  · intro e he
    simp only [Concert.stripSize]
    rcases List.mem_cons.mp he with rfl | he
    · omega
    · have := h2 e he
      omega
  · simp only [Concert.stripSize]
    rcases h3 with h3 | ⟨e, he, hv⟩
    · exact ⟨entry, List.mem_cons_self _ _, by rw [h3]⟩
    · exact ⟨e, List.mem_cons_of_mem _ he, by rw [hv]⟩

/-- Adding a patch returns the number of patches before the call and makes the
concert one patch longer. -/
theorem addPatch_size (c : Concert) (p : IPatch) :
    (c.addPatch p).2 = (c.size : Int) ∧ (c.addPatch p).1.size = c.size + 1 := by
  unfold Concert.addPatch Concert.size
  split <;> simp

/-- The number of patches after a run of successful `addPatch` calls of either
overload. -/
theorem addPatch_fold_size (calls : List (Bool × IPatch)) (c : Concert) :
    (calls.foldl (fun d call =>
        if call.1 = true then (d.addPatchFromFactory (some call.2)).1
        else (d.addPatch call.2).1) c).size = c.size + calls.length := by
  induction calls generalizing c with
  | nil => simp
  | cons call calls ih =>
    simp only [List.foldl_cons, List.length_cons]
    rw [ih]
    split <;> simp only [Concert.addPatchFromFactory, (addPatch_size c call.2).2] <;> omega

/-- C18: on a fresh concert, after any run of successful `addPatch` calls,
each through either overload, the next successful call returns the number of
calls made before it, which is `size()` before the call, and `size()` grows by
one; so the first three calls return 0, 1 and 2. A call whose factory gives no
patch returns the invalid position and changes nothing. -/
theorem addPatch_returns_position (calls : List (Bool × IPatch)) (p p1 p2 p3 : IPatch) :
    (calls.foldl (fun d call =>
        if call.1 = true then (d.addPatchFromFactory (some call.2)).1
        else (d.addPatch call.2).1) Concert.new).size = calls.length ∧
    ((calls.foldl (fun d call =>
        if call.1 = true then (d.addPatchFromFactory (some call.2)).1
        else (d.addPatch call.2).1) Concert.new).addPatch p).2 = (calls.length : Int) ∧
    ((calls.foldl (fun d call =>
        if call.1 = true then (d.addPatchFromFactory (some call.2)).1
        else (d.addPatch call.2).1) Concert.new).addPatchFromFactory (some p)).2 =
      (calls.length : Int) ∧
    ((calls.foldl (fun d call =>
        if call.1 = true then (d.addPatchFromFactory (some call.2)).1
        else (d.addPatch call.2).1) Concert.new).addPatch p).1.size = calls.length + 1 ∧
    (Concert.new.addPatchFromFactory (some p1)).2 = 0 ∧
    ((Concert.new.addPatchFromFactory (some p1)).1.addPatchFromFactory (some p2)).2 = 1 ∧
    (((Concert.new.addPatchFromFactory (some p1)).1.addPatchFromFactory (some p2)).1.addPatch
      p3).2 = 2 ∧
    (Concert.new.addPatchFromFactory none) = (Concert.new, Concert.c_invalidPatchPosition) := by
  have hsize := addPatch_fold_size calls Concert.new
  have h0 : Concert.new.size = 0 := rfl
  rw [h0, Nat.zero_add] at hsize
  have hpos := (addPatch_size (calls.foldl (fun d call =>
      if call.1 = true then (d.addPatchFromFactory (some call.2)).1
      else (d.addPatch call.2).1) Concert.new) p).1
  have hgrow := (addPatch_size (calls.foldl (fun d call =>
      if call.1 = true then (d.addPatchFromFactory (some call.2)).1
      else (d.addPatch call.2).1) Concert.new) p).2
  rw [hsize] at hpos hgrow
  exact ⟨hsize, hpos, hpos, hgrow, rfl, rfl, rfl, rfl⟩

/-- Adding a patch to a concert that already has patches appends it and changes
nothing else. -/
theorem addPatch_of_nonempty (d : Concert) (q : IPatch) (h : d.m_patches ≠ []) :
    (d.addPatch q).1 = { d with m_patches := d.m_patches ++ [q] } := by
  unfold Concert.addPatch
  have hne : ¬ (d.m_patches.isEmpty = true ∧ d.m_activePatch = none) := by
    intro hc
    exact h (List.isEmpty_iff.mp hc.1)
  rw [if_neg hne]

/-- A run of `addPatch` calls on a concert that already has patches appends the
patches in order and changes nothing else. -/
theorem addPatch_fold_of_nonempty (later : List IPatch) (d : Concert) (h : d.m_patches ≠ []) :
    later.foldl (fun e q => (e.addPatch q).1) d = { d with m_patches := d.m_patches ++ later } := by
  induction later generalizing d with
  | nil => simp
  | cons q qs ih =>
    simp only [List.foldl_cons]
    rw [addPatch_of_nonempty d q h, ih _ (by simp)]
    simp

/-- C20: the first patch added to a fresh concert is activated and becomes the
active patch; patches added later are appended as they are and the active patch
stays the first one; `execute` then calls `execute` of the first patch once and
of no other patch. -/
theorem first_patch_becomes_active (p1 p2 : IPatch) (later : List IPatch) :
    (Concert.new.addPatch p1).1.m_activePatch = some 0 ∧
    (Concert.new.addPatch p1).1.m_patches = [p1.activate] ∧
    p1.activate.active = true ∧
    (later.foldl (fun e q => (e.addPatch q).1) (Concert.new.addPatch p1).1).m_activePatch =
      some 0 ∧
    (later.foldl (fun e q => (e.addPatch q).1) (Concert.new.addPatch p1).1).m_patches =
      p1.activate :: later ∧
    (later.foldl (fun e q => (e.addPatch q).1) (Concert.new.addPatch p1).1).execute.2.executed =
      [0] ∧
    ((Concert.new.addPatch p1).1.addPatch p2).1.execute.2.executed = [0] ∧
    (((Concert.new.addPatch p1).1.addPatch p2).1.execute.2.executed.count 0 = 1 ∧
      ((Concert.new.addPatch p1).1.addPatch p2).1.execute.2.executed.count 1 = 0) := by
  have hfold := addPatch_fold_of_nonempty later (Concert.new.addPatch p1).1
    (by simp [Concert.addPatch, Concert.new])
  have hexec : (later.foldl (fun e q => (e.addPatch q).1)
      (Concert.new.addPatch p1).1).execute.2.executed = [0] := by
    rw [hfold]
    simp [Concert.execute, Concert.runPending, Concert.addPatch, Concert.new]
  have htwo : ((Concert.new.addPatch p1).1.addPatch p2).1.execute.2.executed = [0] := by
    simp [Concert.execute, Concert.runPending, Concert.addPatch, Concert.new]
  refine ⟨rfl, rfl, rfl, ?_, ?_, hexec, htwo, ?_⟩
  · rw [hfold]; rfl
  · rw [hfold]; rfl
  · rw [htwo]; decide

/-- Queued work changes neither the listening flag nor the program change
channel. -/
theorem runTask_keeps_settings (c : Concert) (t : ScheduledTask) :
    (c.runTask t).m_listeningToProgramChange = c.m_listeningToProgramChange ∧
    (c.runTask t).m_programChangeChannel = c.m_programChangeChannel := by
  cases t with
  | controlChange channel controllerNumber value =>
    simp only [Concert.runTask, Concert.handleControlChange]
    split
    · split
      · exact ⟨rfl, rfl⟩
      · split <;> exact ⟨rfl, rfl⟩
    · exact ⟨rfl, rfl⟩
  | programChange channel program =>
    simp only [Concert.runTask, Concert.handleProgramChange]
    split
    · split <;> exact ⟨rfl, rfl⟩
    · exact ⟨rfl, rfl⟩

/-- A whole queue of work changes neither the listening flag nor the program
change channel. -/
theorem foldl_runTask_keeps_settings (ts : List ScheduledTask) (c : Concert) :
    (ts.foldl Concert.runTask c).m_listeningToProgramChange = c.m_listeningToProgramChange ∧
    (ts.foldl Concert.runTask c).m_programChangeChannel = c.m_programChangeChannel := by
  induction ts generalizing c with
  | nil => exact ⟨rfl, rfl⟩
  | cons t ts ih =>
    simp only [List.foldl_cons]
    rw [(ih (c.runTask t)).1, (ih (c.runTask t)).2]
    exact runTask_keeps_settings c t

/-- Bit facts of the bank select sequence for 7-bit values: the two halves do
not overlap, in either order of arrival. -/
theorem bank_bits (bank lsb msb : Nat) (hl : lsb < 128) (hm : msb < 128) :
    ((msb &&& 0x7F) <<< 7) ||| (((bank &&& 0x3F80) ||| (lsb &&& 0x7F)) &&& 0x7F) =
      (msb <<< 7) ||| lsb ∧
    ((((msb &&& 0x7F) <<< 7) ||| (bank &&& 0x7F)) &&& 0x3F80) ||| (lsb &&& 0x7F) =
      (msb <<< 7) ||| lsb := by
  have el : lsb &&& 0x7F = lsb :=
    Nat.and_pow_two_sub_one_of_lt_two_pow (show lsb < 2 ^ 7 from hl)
  have em : msb &&& 0x7F = msb :=
    Nat.and_pow_two_sub_one_of_lt_two_pow (show msb < 2 ^ 7 from hm)
  have ehigh : (msb <<< 7) &&& 0x3F80 = msb <<< 7 := by
    interval_cases msb <;> rfl
  have z1 : (bank &&& 0x3F80) &&& 0x7F = 0 := by
    rw [Nat.and_assoc]; exact Nat.and_zero bank
  have z2 : (bank &&& 0x7F) &&& 0x3F80 = 0 := by
    rw [Nat.and_assoc]; exact Nat.and_zero bank
  constructor
  · rw [em, Nat.and_distrib_right, z1, Nat.and_assoc, Nat.and_self, el, Nat.zero_or]
  · rw [em, el, Nat.and_distrib_right, ehigh, z2, Nat.or_zero]

/-- The two bank select events, handled one after the other on the listening
channel, leave the bank `(msb << 7) | lsb`, in either order. -/
theorem handleControlChange_bank (c : Concert) (lsb msb : Nat)
    (hl : c.m_listeningToProgramChange = true) (hlsb : lsb < 128) (hmsb : msb < 128) :
    ((c.handleControlChange c.m_programChangeChannel 32 lsb).handleControlChange
        c.m_programChangeChannel 0 msb).m_currentBank = (msb <<< 7) ||| lsb ∧
    ((c.handleControlChange c.m_programChangeChannel 0 msb).handleControlChange
        c.m_programChangeChannel 32 lsb).m_currentBank = (msb <<< 7) ||| lsb := by
  obtain ⟨b1, b2⟩ := bank_bits c.m_currentBank lsb msb hlsb hmsb
  simp only [Concert.handleControlChange, hl, Concert.BANK_SELECT_MSB, Concert.BANK_SELECT_LSB]
  simp [b1, b2]

/-- Queued work neither reads nor writes the queue itself. -/
theorem runTask_scheduler (c : Concert) (q : List ScheduledTask) (t : ScheduledTask) :
    Concert.runTask { c with m_scheduler := q } t = { c.runTask t with m_scheduler := q } := by
  cases t with
  | controlChange channel controllerNumber value =>
    simp only [Concert.runTask, Concert.handleControlChange]
    split
    · split
      · rfl
      · split <;> rfl
    · rfl
  | programChange channel program =>
    simp only [Concert.runTask, Concert.handleProgramChange]
    split
    · split <;> rfl
    · rfl

/-- A run of queued work neither reads nor writes the queue itself. -/
theorem foldl_runTask_scheduler (ts : List ScheduledTask) (c : Concert)
    (q : List ScheduledTask) :
    ts.foldl Concert.runTask { c with m_scheduler := q } =
      { ts.foldl Concert.runTask c with m_scheduler := q } := by
  induction ts generalizing c with
  | nil => rfl
  | cons t ts ih =>
    simp only [List.foldl_cons]
    rw [runTask_scheduler, ih]

/-- Draining the scheduler after more work was queued: the work that was
pending runs first, then the new work, in the order of queueing. -/
theorem runPending_append (c : Concert) (extra : List ScheduledTask) :
    Concert.runPending { c with m_scheduler := c.m_scheduler ++ extra } =
      { extra.foldl Concert.runTask (c.m_scheduler.foldl Concert.runTask c) with
        m_scheduler := [] } := by
  simp only [Concert.runPending, foldl_runTask_scheduler, List.foldl_append]

/-- The bank after `execute` is the bank after draining the scheduler. -/
theorem execute_bank_runPending (c : Concert) :
    c.execute.1.m_currentBank = c.runPending.m_currentBank := by
  unfold Concert.execute
  simp only []
  split
  · rfl
  · split <;> rfl

/-- C15: with `listeningToProgramChange` true, for 7-bit values `lsb` and
`msb`, a control change for controller 32 with value `lsb` and one for controller
0 with value `msb` on the program change channel, in either order, followed by
`execute()`, give `getCurrentBank() == (msb << 7) | lsb`, whatever the bank was
and whatever work was queued before. -/
theorem bank_select (c : Concert) (lsb msb : Nat)
    (hl : c.m_listeningToProgramChange = true) (hlsb : lsb < 128) (hmsb : msb < 128) :
    ((c.onControlChange c.m_programChangeChannel 32 lsb).onControlChange
        c.m_programChangeChannel 0 msb).execute.1.getCurrentBank = (msb <<< 7) ||| lsb ∧
    ((c.onControlChange c.m_programChangeChannel 0 msb).onControlChange
        c.m_programChangeChannel 32 lsb).execute.1.getCurrentBank = (msb <<< 7) ||| lsb := by
  obtain ⟨k1, k2⟩ := foldl_runTask_keeps_settings c.m_scheduler c
  have hl2 : (c.m_scheduler.foldl Concert.runTask c).m_listeningToProgramChange = true := by
    rw [k1, hl]
  obtain ⟨r1, r2⟩ := handleControlChange_bank (c.m_scheduler.foldl Concert.runTask c) lsb msb
    hl2 hlsb hmsb
  rw [k2] at r1 r2
  have e1 := runPending_append c
    [ScheduledTask.controlChange c.m_programChangeChannel 32 lsb,
      ScheduledTask.controlChange c.m_programChangeChannel 0 msb]
  have e2 := runPending_append c
    [ScheduledTask.controlChange c.m_programChangeChannel 0 msb,
      ScheduledTask.controlChange c.m_programChangeChannel 32 lsb]
  constructor
  · simp only [Concert.getCurrentBank, execute_bank_runPending, Concert.onControlChange,
      List.append_assoc, List.singleton_append]
    rw [e1]
    exact r1
  · simp only [Concert.getCurrentBank, execute_bank_runPending, Concert.onControlChange,
      List.append_assoc, List.singleton_append]
    rw [e2]
    exact r2

/-- C16: a control change on a channel other than the program change channel,
followed by `execute()`, leaves the bank that `execute()` alone would leave; with
no other work pending this is the bank before the event. -/
theorem control_change_other_channel (c : Concert) (channel controllerNumber value : Nat)
    (hch : channel ≠ c.m_programChangeChannel) :
    (c.onControlChange channel controllerNumber value).execute.1.getCurrentBank =
      c.execute.1.getCurrentBank ∧
    (c.m_scheduler = [] →
      (c.onControlChange channel controllerNumber value).execute.1.getCurrentBank =
        c.getCurrentBank) := by
  obtain ⟨_, k2⟩ := foldl_runTask_keeps_settings c.m_scheduler c
  have e := runPending_append c [ScheduledTask.controlChange channel controllerNumber value]
  have hne : ¬ ((c.m_scheduler.foldl Concert.runTask c).m_listeningToProgramChange = true ∧
      channel = (c.m_scheduler.foldl Concert.runTask c).m_programChangeChannel) := by
    rw [k2]
    exact fun h => hch h.2
  have main : (c.onControlChange channel controllerNumber value).execute.1.getCurrentBank =
      c.execute.1.getCurrentBank := by
    simp only [Concert.getCurrentBank, execute_bank_runPending, Concert.onControlChange]
    rw [e]
    simp only [List.foldl_cons, List.foldl_nil, Concert.runTask, Concert.handleControlChange,
      if_neg hne, Concert.runPending]
  refine ⟨main, ?_⟩
  intro hq
  rw [main]
  simp only [Concert.getCurrentBank, execute_bank_runPending, Concert.runPending, hq,
    List.foldl_nil]

/-- The patch at the updated position is the old one with `f` applied. -/
theorem getElem?_updatePatch_eq (f : IPatch → IPatch) (i : Nat) (ps : List IPatch) :
    (Concert.updatePatch f i ps)[i]? = (ps[i]?).map f := by
  induction ps generalizing i with
  | nil => cases i <;> simp [Concert.updatePatch]
  | cons p ps ih =>
    cases i with
    | zero => simp [Concert.updatePatch]
    | succ j => simp [Concert.updatePatch, ih j]

/-- The patches at the other positions are not touched by an update. -/
theorem getElem?_updatePatch_ne (f : IPatch → IPatch) (i j : Nat) (ps : List IPatch)
    (h : j ≠ i) : (Concert.updatePatch f i ps)[j]? = ps[j]? := by
  induction ps generalizing i j with
  | nil => cases i <;> simp [Concert.updatePatch]
  | cons p ps ih =>
    cases i with
    | zero =>
      cases j with
      | zero => exact absurd rfl h
      | succ k => simp [Concert.updatePatch]
    | succ i1 =>
      cases j with
      | zero => simp [Concert.updatePatch]
      | succ k =>
        simp only [Concert.updatePatch, List.getElem?_cons_succ]
        exact ih i1 k (fun hk => h (by rw [hk]))

/-- The search finds the first position, in position order, whose patch is
bound to the bank and the program. -/
theorem findPatch_eq_some (bank program : Nat) (ps : List IPatch) (i : Nat) (target : IPatch)
    (hi : ps[i]? = some target)
    (hmatch : target.bank = some bank ∧ target.program = some program)
    (hfirst : ∀ j q, j < i → ps[j]? = some q →
      ¬ (q.bank = some bank ∧ q.program = some program)) :
    Concert.findPatch bank program ps = some i := by
  induction ps generalizing i with
  | nil => simp at hi
  | cons p ps ih =>
    cases i with
    | zero =>
      simp only [List.getElem?_cons_zero, Option.some.injEq] at hi
      subst hi
      simp [Concert.findPatch, hmatch]
    | succ k =>
      have hp : ¬ (p.bank = some bank ∧ p.program = some program) :=
        hfirst 0 p (Nat.succ_pos k) (by simp)
      have hrec := ih k (by simpa using hi)
        (fun j q hj hq => hfirst (j + 1) q (Nat.succ_lt_succ hj) (by simpa using hq))
      simp only [Concert.findPatch, if_neg hp, hrec, Option.map_some']

/-- The search finds nothing when no patch is bound to the bank and the
program. -/
theorem findPatch_eq_none (bank program : Nat) (ps : List IPatch)
    (h : ∀ q ∈ ps, ¬ (q.bank = some bank ∧ q.program = some program)) :
    Concert.findPatch bank program ps = none := by
  induction ps with
  | nil => rfl
  | cons p ps ih =>
    have hp := h p (List.mem_cons_self p ps)
    simp only [Concert.findPatch, if_neg hp,
      ih (fun q hq => h q (List.mem_cons_of_mem p hq)), Option.map_none']

/-- Executing the active patch does not change which patch is active. -/
theorem execute_activePatch (c : Concert) :
    c.execute.1.m_activePatch = c.runPending.m_activePatch := by
  unfold Concert.execute
  simp only []
  split
  · rfl
  · split <;> rfl

/-- What `execute` does once the scheduler is drained and a patch is active. -/
theorem execute_of_active (c : Concert) (i : Nat) (pPatch : IPatch)
    (ha : c.runPending.m_activePatch = some i) (hp : c.runPending.m_patches[i]? = some pPatch) :
    c.execute.1.m_activePatch = some i ∧ c.execute.2.executed = [i] ∧
    c.execute.1.m_patches =
      Concert.updatePatch
        (fun _ => (pPatch.execute
          (List.replicate (Concert.stripSize c.runPending.m_noteToLightMap) TRgb.new)
          c.runPending.m_noteToLightMap).1) i c.runPending.m_patches := by
  unfold Concert.execute
  simp only [ha, hp]
  exact ⟨trivial, trivial, trivial⟩

/-- Draining the scheduler after a program change was queued on the program
change channel of a listening concert, when the search finds position `i`: the
active patch, if any, is deactivated, patch `i` is activated and becomes the
active patch. -/
theorem runPending_programChange_match (c : Concert) (program i : Nat)
    (hl : c.m_listeningToProgramChange = true)
    (hfind : Concert.findPatch c.runPending.m_currentBank program c.runPending.m_patches =
      some i) :
    (c.onProgramChange c.m_programChangeChannel program).runPending.m_activePatch = some i ∧
    (c.onProgramChange c.m_programChangeChannel program).runPending.m_patches =
      Concert.updatePatch IPatch.activate i
        (match c.runPending.m_activePatch with
          | none => c.runPending.m_patches
          | some active => Concert.updatePatch IPatch.deactivate active c.runPending.m_patches) ∧
    (c.onProgramChange c.m_programChangeChannel program).runPending.m_noteToLightMap =
      c.runPending.m_noteToLightMap := by
  obtain ⟨k1, k2⟩ := foldl_runTask_keeps_settings c.m_scheduler c
  have e := runPending_append c
    [ScheduledTask.programChange c.m_programChangeChannel program]
  have hcond : (c.m_scheduler.foldl Concert.runTask c).m_listeningToProgramChange = true ∧
      c.m_programChangeChannel =
        (c.m_scheduler.foldl Concert.runTask c).m_programChangeChannel := by
    rw [k1, k2]; exact ⟨hl, rfl⟩
  have hfind2 : Concert.findPatch (c.m_scheduler.foldl Concert.runTask c).m_currentBank program
      (c.m_scheduler.foldl Concert.runTask c).m_patches = some i := hfind
  simp only [Concert.onProgramChange]
  rw [e]
  simp only [List.foldl_cons, List.foldl_nil, Concert.runTask, Concert.handleProgramChange,
    if_pos hcond, hfind2]
  refine ⟨trivial, ?_, ?_⟩ <;> rfl

/-- Draining the scheduler after a program change was queued, when the search
finds nothing: patches and active patch are as without the program change. -/
theorem runPending_programChange_no_match (c : Concert) (channel program : Nat)
    (hfind : Concert.findPatch c.runPending.m_currentBank program c.runPending.m_patches =
      none) :
    (c.onProgramChange channel program).runPending = c.runPending := by
  have e := runPending_append c [ScheduledTask.programChange channel program]
  have hfind2 : Concert.findPatch (c.m_scheduler.foldl Concert.runTask c).m_currentBank program
      (c.m_scheduler.foldl Concert.runTask c).m_patches = none := hfind
  simp only [Concert.onProgramChange]
  rw [e]
  simp only [List.foldl_cons, List.foldl_nil, Concert.runTask, Concert.handleProgramChange,
    hfind2]
  split <;> rfl

/-- C17: on a listening concert a program change on the program change
channel is handled by the next `execute()`, with the bank and the patches as they
are once the work queued before it has run. If position `i` holds the first
patch, in position order, bound to that bank and the received program, then
patch `i` is the active patch and is active, the patch that was active before (if
another one) is no longer active, and `execute()` runs patch `i` and no other.
If no patch is bound to them, the active patch is the one it was. -/
theorem program_change_switches_patch (c : Concert) (program : Nat)
    (hl : c.m_listeningToProgramChange = true) :
    (∀ (i : Nat) (target : IPatch),
      c.runPending.m_patches[i]? = some target →
      (target.bank = some c.runPending.m_currentBank ∧ target.program = some program) →
      (∀ j q, j < i → c.runPending.m_patches[j]? = some q →
        ¬ (q.bank = some c.runPending.m_currentBank ∧ q.program = some program)) →
      (c.onProgramChange c.m_programChangeChannel program).execute.1.m_activePatch = some i ∧
      (c.onProgramChange c.m_programChangeChannel program).execute.2.executed = [i] ∧
      ((c.onProgramChange c.m_programChangeChannel program).execute.1.m_patches[i]?).map
        IPatch.active = some true ∧
      (∀ a, c.runPending.m_activePatch = some a → a ≠ i → a < c.runPending.m_patches.length →
        ((c.onProgramChange c.m_programChangeChannel program).execute.1.m_patches[a]?).map
          IPatch.active = some false)) ∧
    ((∀ q ∈ c.runPending.m_patches,
        ¬ (q.bank = some c.runPending.m_currentBank ∧ q.program = some program)) →
      (c.onProgramChange c.m_programChangeChannel program).execute.1.m_activePatch =
        c.runPending.m_activePatch ∧
      (c.onProgramChange c.m_programChangeChannel program).execute.2.executed =
        c.execute.2.executed) := by
  constructor
  · intro i target hi hmatch hfirst
    have hfind := findPatch_eq_some _ program _ i target hi hmatch hfirst
    obtain ⟨ra, rp, _⟩ := runPending_programChange_match c program i hl hfind
    -- the patch at position `i` after the switch
    have hdeact : ∃ t, (match c.runPending.m_activePatch with
          | none => c.runPending.m_patches
          | some active =>
            Concert.updatePatch IPatch.deactivate active c.runPending.m_patches)[i]? = some t := by
      cases hact : c.runPending.m_activePatch with
      | none => exact ⟨target, hi⟩
      | some a =>
        by_cases hai : i = a
        · subst hai
          exact ⟨target.deactivate, by simp only [getElem?_updatePatch_eq, hi, Option.map_some']⟩
        · exact ⟨target, by simp only [getElem?_updatePatch_ne _ a i _ hai, hi]⟩
    obtain ⟨t, ht⟩ := hdeact
    have hpi : (c.onProgramChange c.m_programChangeChannel program).runPending.m_patches[i]? =
        some t.activate := by
      rw [rp, getElem?_updatePatch_eq, ht, Option.map_some']
    obtain ⟨x1, x2, x3⟩ := execute_of_active _ i t.activate ra hpi
    refine ⟨x1, x2, ?_, ?_⟩
    · rw [x3, getElem?_updatePatch_eq, hpi]
      rfl
    · intro a ha hne hlen
      rw [x3, getElem?_updatePatch_ne _ i a _ hne, rp, getElem?_updatePatch_ne _ i a _ hne]
      simp only [ha, getElem?_updatePatch_eq]
      rw [List.getElem?_eq_getElem hlen]
      rfl
  · intro hnone
    have hfind := findPatch_eq_none c.runPending.m_currentBank program c.runPending.m_patches
      hnone
    have hrun := runPending_programChange_no_match c c.m_programChangeChannel program hfind
    refine ⟨?_, ?_⟩
    · rw [execute_activePatch, hrun]
    · unfold Concert.execute
      simp only [hrun]

/-- Instance of C15: the test `bankSelect`, bank 129 on channel 0 of a fresh
concert. -/
theorem bank_select_witness :
    ((Concert.new.setListeningToProgramChange true).setProgramChangeChannel
        0).m_listeningToProgramChange = true ∧
    (1 < 128) ∧
    (((((Concert.new.setListeningToProgramChange true).setProgramChangeChannel
        0).onControlChange 0 32 1).onControlChange 0 0 1).execute.1.getCurrentBank = 129) :=
  ⟨rfl, by decide,
    (bank_select ((Concert.new.setListeningToProgramChange true).setProgramChangeChannel 0)
      1 1 rfl (by decide) (by decide)).1⟩

/-- Instance of C16: the test `bankSelectFromOtherChannelIgnored`, a bank select
on channel 1 while the program change channel is 0. -/
theorem control_change_other_channel_witness :
    (1 ≠ ((Concert.new.setListeningToProgramChange true).setProgramChangeChannel
        0).m_programChangeChannel) ∧
    ((((Concert.new.setListeningToProgramChange true).setProgramChangeChannel
        0).onControlChange 1 32 1).execute.1.getCurrentBank = 0) :=
  ⟨by decide,
    (control_change_other_channel
      ((Concert.new.setListeningToProgramChange true).setProgramChangeChannel 0) 1 32 1
      (by decide)).2 rfl⟩

/-- Instance of C17: the test `patchChangeOnProgramChange`. After the program
change 42 on channel 2 the second patch (position 1) is the active patch and the
only patch executed. -/
theorem program_change_switches_patch_witness :
    patchChangeScenario.m_listeningToProgramChange = true ∧
    patchChangeScenario.runPending.m_currentBank = 129 ∧
    patchChangeScenario.runPending.m_activePatch = some 0 ∧
    (patchChangeScenario.onProgramChange 2 42).execute.1.m_activePatch = some 1 ∧
    (patchChangeScenario.onProgramChange 2 42).execute.2.executed = [1] :=
  ⟨rfl, rfl, rfl,
    ((program_change_switches_patch patchChangeScenario 42 rfl).1 1
      (boundPatch "second" 129 42) rfl ⟨rfl, rfl⟩
      (fun j q hj hq hm => by
        have hj0 : j = 0 := by omega
        subst hj0
        have hq2 : (plainPatch "first").activate = q := Option.some.inj hq
        subst hq2
        exact Option.noConfusion hm.1)).1,
    ((program_change_switches_patch patchChangeScenario 42 rfl).1 1
      (boundPatch "second" 129 42) rfl ⟨rfl, rfl⟩
      (fun j q hj hq hm => by
        have hj0 : j = 0 := by omega
        subst hj0
        have hq2 : (plainPatch "first").activate = q := Option.some.inj hq
        subst hq2
        exact Option.noConfusion hm.1)).2.1⟩

/-! ## Parser invariants and stream properties -/

/-- One byte keeps the shape of the parser state. -/
theorem wellFormed_step (s : BaseMidiInput) (v : Nat) (h : s.wellFormed = true) :
    (processMidiByte s v).1.wellFormed = true := by
  obtain ⟨building, msg⟩ := s
  cases building with
  | false =>
    rw [processMidiByte_idle]
    by_cases hv : v &&& 0x80 = 0x80
    · rw [if_pos hv]
      by_cases hk : v &&& 0xF0 = 0x80 ∨ v &&& 0xF0 = 0x90 ∨ v &&& 0xF0 = 0xB0 ∨ v &&& 0xF0 = 0xC0
      · simp [BaseMidiInput.wellFormed, hk, hv]
      · simp [BaseMidiInput.wellFormed, hk]
    · rw [if_neg hv]
      exact h
  | true =>
    match msg, h with
    | [b], h =>
      simp only [BaseMidiInput.wellFormed, decide_eq_true_eq] at h
      obtain ⟨hb, hk⟩ := h
      rcases hk with hk | hk | hk | hk <;>
        simp [processMidiByte, BaseMidiInput.wellFormed, hk, hb, IMidiInterface.NOTE_OFF,
          IMidiInterface.NOTE_ON, IMidiInterface.CONTROL_CHANGE, IMidiInterface.PROGRAM_CHANGE]
    | [b, d], h =>
      simp only [BaseMidiInput.wellFormed, decide_eq_true_eq] at h
      obtain ⟨hb, hk⟩ := h
      rcases hk with hk | hk | hk <;>
        simp [processMidiByte, BaseMidiInput.wellFormed, hk, IMidiInterface.NOTE_OFF,
          IMidiInterface.NOTE_ON, IMidiInterface.CONTROL_CHANGE, IMidiInterface.PROGRAM_CHANGE]

/-- Every state reached from a state of that shape has that shape. -/
theorem wellFormed_run (bs : List Nat) (s : BaseMidiInput) (h : s.wellFormed = true) :
    (processMidiBytes s bs).1.wellFormed = true := by
  induction bs generalizing s with
  | nil => exact h
  | cons b bs ih => exact ih _ (wellFormed_step s b h)

/-- What the shape says about a state in which a message is being built. -/
theorem wellFormed_building (s : BaseMidiInput) (h : s.wellFormed = true)
    (hb : s.m_buildingMessage = true) :
    (∃ b, s.m_currentMessage = [b] ∧ b &&& 0x80 = 0x80) ∨
    (∃ b d, s.m_currentMessage = [b, d] ∧ b &&& 0x80 = 0x80 ∧ b &&& 0xF0 ≠ 0xC0) := by
  obtain ⟨building, msg⟩ := s
  cases hb
  match msg, h with
  | [b], h =>
    simp only [BaseMidiInput.wellFormed, decide_eq_true_eq] at h
    exact Or.inl ⟨b, rfl, h.1⟩
  | [b, d], h =>
    simp only [BaseMidiInput.wellFormed, decide_eq_true_eq] at h
    refine Or.inr ⟨b, d, rfl, h.1, ?_⟩
    rcases h.2 with hk | hk | hk <;> rw [hk] <;> decide

/-- What the shape says about the length of the buffer. -/
theorem wellFormed_length (s : BaseMidiInput) (h : s.wellFormed = true) :
    s.m_currentMessage.length ≤ 3 := by
  obtain ⟨building, msg⟩ := s
  cases building with
  | false => simpa [BaseMidiInput.wellFormed] using h
  | true =>
    rcases wellFormed_building ⟨true, msg⟩ h rfl with ⟨b, hm, _⟩ | ⟨b, d, hm, _⟩ <;>
      simp only [] at hm <;> rw [hm] <;> simp

/-- C24: in every state reached from the initial parser by any sequence of
`processMidiByte` calls, whenever a message is being built the buffer is not
empty and its first byte has the high bit set, so that the status and the channel
are taken from a status byte. -/
theorem buffer_starts_with_status (bs : List Nat)
    (hb : (processMidiBytes BaseMidiInput.new bs).1.m_buildingMessage = true) :
    ∃ b rest, (processMidiBytes BaseMidiInput.new bs).1.m_currentMessage = b :: rest ∧
      b &&& 0x80 = 0x80 ∧
      ((processMidiBytes BaseMidiInput.new bs).1.m_currentMessage.getD 0 0) &&& 0x80 = 0x80 := by
  have hw := wellFormed_run bs BaseMidiInput.new rfl
  rcases wellFormed_building _ hw hb with ⟨b, hm, hs⟩ | ⟨b, d, hm, hs, _⟩
  · exact ⟨b, [], hm, hs, by rw [hm]; exact hs⟩
  · exact ⟨b, [d], hm, hs, by rw [hm]; exact hs⟩

/-- From a state of the parser shape, a byte that makes the parser send a
notification leaves a buffer of exactly 3 bytes, or of exactly 2 bytes whose
status byte is a program change. -/
theorem notification_at_full_size (s : BaseMidiInput) (v : Nat) (h : s.wellFormed = true)
    (he : (processMidiByte s v).2 ≠ []) :
    (processMidiByte s v).1.m_currentMessage.length = 3 ∨
    (((processMidiByte s v).1.m_currentMessage.getD 0 0) &&& 0xF0 = 0xC0 ∧
      (processMidiByte s v).1.m_currentMessage.length = 2) := by
  obtain ⟨building, msg⟩ := s
  cases building with
  | false =>
    rw [processMidiByte_idle] at he
    split at he <;> exact absurd rfl he
  | true =>
    match msg, h with
    | [b], h =>
      simp only [BaseMidiInput.wellFormed, decide_eq_true_eq] at h
      obtain ⟨hb, hk⟩ := h
      rcases hk with hk | hk | hk | hk
      · exact absurd (by simp [processMidiByte, hk, IMidiInterface.NOTE_OFF]) he
      · exact absurd (by simp [processMidiByte, hk, IMidiInterface.NOTE_OFF,
          IMidiInterface.NOTE_ON]) he
      · exact absurd (by simp [processMidiByte, hk, IMidiInterface.NOTE_OFF,
          IMidiInterface.NOTE_ON, IMidiInterface.CONTROL_CHANGE]) he
      · right
        simp [processMidiByte, hk, IMidiInterface.NOTE_OFF, IMidiInterface.NOTE_ON,
          IMidiInterface.CONTROL_CHANGE, IMidiInterface.PROGRAM_CHANGE]
    | [b, d], h =>
      simp only [BaseMidiInput.wellFormed, decide_eq_true_eq] at h
      obtain ⟨hb, hk⟩ := h
      left
      rcases hk with hk | hk | hk <;>
        simp [processMidiByte, hk, IMidiInterface.NOTE_OFF, IMidiInterface.NOTE_ON,
          IMidiInterface.CONTROL_CHANGE]

/-- C26: in every state reached from the initial parser the buffer holds at
most 3 bytes; while a message is being built it holds 1 or 2 bytes, and exactly
1 when the message is a program change, so the buffer with the next byte pushed
holds at most 3 bytes (2 for a program change). A byte that makes the parser
send a notification leaves exactly 3 bytes in the buffer, or exactly 2 for a
program change: the size tests succeed at these sizes only, and the bytes read at
positions 1 and 2 are there. -/
theorem buffer_bounded (bs : List Nat) (v : Nat) :
    (processMidiBytes BaseMidiInput.new bs).1.m_currentMessage.length ≤ 3 ∧
    ((processMidiBytes BaseMidiInput.new bs).1.m_buildingMessage = true →
      1 ≤ (processMidiBytes BaseMidiInput.new bs).1.m_currentMessage.length ∧
      (processMidiBytes BaseMidiInput.new bs).1.m_currentMessage.length ≤ 2 ∧
      ((processMidiBytes BaseMidiInput.new bs).1.m_currentMessage ++ [v]).length ≤ 3 ∧
      (((processMidiBytes BaseMidiInput.new bs).1.m_currentMessage.getD 0 0) &&& 0xF0 = 0xC0 →
        (processMidiBytes BaseMidiInput.new bs).1.m_currentMessage.length = 1 ∧
        ((processMidiBytes BaseMidiInput.new bs).1.m_currentMessage ++ [v]).length = 2)) ∧
    ((processMidiByte (processMidiBytes BaseMidiInput.new bs).1 v).2 ≠ [] →
      (processMidiByte (processMidiBytes BaseMidiInput.new bs).1 v).1.m_currentMessage.length =
        3 ∨
      (((processMidiByte (processMidiBytes BaseMidiInput.new bs).1
          v).1.m_currentMessage.getD 0 0) &&& 0xF0 = 0xC0 ∧
        (processMidiByte (processMidiBytes BaseMidiInput.new bs).1
          v).1.m_currentMessage.length = 2)) := by
  have hw := wellFormed_run bs BaseMidiInput.new rfl
  refine ⟨wellFormed_length _ hw, ?_, notification_at_full_size _ v hw⟩
  intro hb
  rcases wellFormed_building _ hw hb with ⟨b, hm, _⟩ | ⟨b, d, hm, _, hk⟩
  · rw [hm]
    simp
  · rw [hm]
    refine ⟨by simp, by simp, by simp, ?_⟩
    intro hc
    exact absurd hc hk

/-- Processing a concatenation is processing the first part, then the second
part from the state the first part left. -/
theorem processMidiBytes_append (s : BaseMidiInput) (xs ys : List Nat) :
    processMidiBytes s (xs ++ ys) =
      ((processMidiBytes (processMidiBytes s xs).1 ys).1,
        (processMidiBytes s xs).2 ++ (processMidiBytes (processMidiBytes s xs).1 ys).2) := by
  induction xs generalizing s with
  | nil => simp [processMidiBytes]
  | cons x xs ih =>
    rw [List.cons_append]
    simp only [processMidiBytes]
    rw [ih]
    simp only [List.append_assoc]

/-- Two idle parsers that differ in the stale bytes of their buffers send the
same notifications for the same bytes and end with the same building flag. -/
theorem processMidiBytes_idle_buffer (buf1 buf2 : List Nat) (bs : List Nat) :
    (processMidiBytes ⟨false, buf1⟩ bs).2 = (processMidiBytes ⟨false, buf2⟩ bs).2 ∧
    (processMidiBytes ⟨false, buf1⟩ bs).1.m_buildingMessage =
      (processMidiBytes ⟨false, buf2⟩ bs).1.m_buildingMessage := by
  induction bs generalizing buf1 buf2 with
  | nil => exact ⟨rfl, rfl⟩
  | cons b bs ih =>
    simp only [processMidiBytes, processMidiByte_idle]
    by_cases hb : b &&& 0x80 = 0x80
    · simp only [if_pos hb]
      exact ⟨trivial, trivial⟩
    · simp only [if_neg hb, List.nil_append]
      exact ih buf1 buf2

/-- C27: for two idle parser states that differ only in the contents of the
buffer and any byte sequence, `processMidiByte` sends the same notifications in
both runs and both runs end with the same building flag. -/
theorem idle_behaviour_ignores_stale_buffer (buf1 buf2 : List Nat) (bs : List Nat) :
    (processMidiBytes ⟨false, buf1⟩ bs).2 = (processMidiBytes ⟨false, buf2⟩ bs).2 ∧
    (processMidiBytes ⟨false, buf1⟩ bs).1.m_buildingMessage =
      (processMidiBytes ⟨false, buf2⟩ bs).1.m_buildingMessage :=
  processMidiBytes_idle_buffer buf1 buf2 bs

/-- One complete message of a supported kind, fed to an idle parser, sends
exactly its notification and leaves the parser idle. -/
theorem processMidiBytes_message (buf : List Nat) (e : MidiEvent) (hc : e.channel < 16) :
    processMidiBytes ⟨false, buf⟩ e.toBytes = (⟨false, e.toBytes⟩, [e]) := by
  cases e with
  | noteOnOff c p v isOn =>
    cases isOn with
    | true =>
      obtain ⟨a1, a2, a3⟩ := noteOn_status_bits c hc
      simp [processMidiBytes, processMidiByte, MidiEvent.toBytes, a1, a2, a3,
        IMidiInterface.NOTE_OFF, IMidiInterface.NOTE_ON]
    | false =>
      obtain ⟨a1, a2, a3⟩ := noteOff_status_bits c hc
      simp [processMidiBytes, processMidiByte, MidiEvent.toBytes, a1, a2, a3,
        IMidiInterface.NOTE_OFF]
  | controlChange c n v =>
    obtain ⟨a1, a2, a3⟩ := controlChange_status_bits c hc
    simp [processMidiBytes, processMidiByte, MidiEvent.toBytes, a1, a2, a3,
      IMidiInterface.NOTE_OFF, IMidiInterface.NOTE_ON, IMidiInterface.CONTROL_CHANGE]
  | programChange c n =>
    obtain ⟨a1, a2, a3⟩ := programChange_status_bits c hc
    simp [processMidiBytes, processMidiByte, MidiEvent.toBytes, a1, a2, a3,
      IMidiInterface.NOTE_OFF, IMidiInterface.NOTE_ON, IMidiInterface.CONTROL_CHANGE,
      IMidiInterface.PROGRAM_CHANGE]

/-- A concatenation of complete messages, fed to an idle parser, sends exactly
one notification per message, in order, and leaves the parser idle. -/
theorem processMidiBytes_messages (msgs : List MidiEvent) (buf : List Nat)
    (hc : ∀ e ∈ msgs, e.channel < 16) :
    (processMidiBytes ⟨false, buf⟩ (msgs.foldr (fun e acc => e.toBytes ++ acc) [])).2 = msgs ∧
    (processMidiBytes ⟨false, buf⟩
      (msgs.foldr (fun e acc => e.toBytes ++ acc) [])).1.m_buildingMessage = false := by
  induction msgs generalizing buf with
  | nil => exact ⟨rfl, rfl⟩
  | cons e es ih =>
    have he := processMidiBytes_message buf e (hc e (List.mem_cons_self e es))
    obtain ⟨i1, i2⟩ := ih e.toBytes (fun x hx => hc x (List.mem_cons_of_mem e hx))
    simp only [List.foldr_cons, processMidiBytes_append, he]
    exact ⟨by rw [i1]; rfl, i2⟩

/-- C25: if processing `xs` from an idle parser ends with the parser idle, the
notifications of `xs ++ ys` are those of `xs` followed by those of `ys` processed
from an idle parser (whatever its stale buffer), and the run ends with the
building flag of that run of `ys`. Hence a concatenation of complete supported
messages sends exactly one notification per message, in order. -/
theorem stream_is_compositional (buf buf2 : List Nat) (xs ys : List Nat)
    (msgs : List MidiEvent)
    (hidle : (processMidiBytes ⟨false, buf⟩ xs).1.m_buildingMessage = false)
    (hc : ∀ e ∈ msgs, e.channel < 16) :
    (processMidiBytes ⟨false, buf⟩ (xs ++ ys)).2 =
      (processMidiBytes ⟨false, buf⟩ xs).2 ++ (processMidiBytes ⟨false, buf2⟩ ys).2 ∧
    (processMidiBytes ⟨false, buf⟩ (xs ++ ys)).1.m_buildingMessage =
      (processMidiBytes ⟨false, buf2⟩ ys).1.m_buildingMessage ∧
    (processMidiBytes ⟨false, buf⟩ (msgs.foldr (fun e acc => e.toBytes ++ acc) [])).2 = msgs := by
  have hstate : (processMidiBytes ⟨false, buf⟩ xs).1 =
      ⟨false, (processMidiBytes ⟨false, buf⟩ xs).1.m_currentMessage⟩ := by
    cases hs : (processMidiBytes ⟨false, buf⟩ xs).1 with
    | mk building msg =>
      rw [hs] at hidle
      simp only at hidle
      rw [hidle]
  obtain ⟨j1, j2⟩ := processMidiBytes_idle_buffer
    (processMidiBytes ⟨false, buf⟩ xs).1.m_currentMessage buf2 ys
  rw [processMidiBytes_append, hstate]
  exact ⟨by rw [j1], j2, (processMidiBytes_messages msgs buf hc).1⟩

/-! ## The two `insertBlock` overloads -/

/-- C28: for an index not below the length of the chain, `insertBlock(b)` and
`insertBlock(b, index)` both succeed and give the same chain, the old chain with
`b` appended. -/
theorem insertBlock_overloads_agree (chain : ProcessingChain) (pBlock : Option IProcessingBlock)
    (index : Nat) (h : index ≥ chain.m_processingChain.length) :
    chain.insertBlockAtEnd pBlock = chain.insertBlock pBlock index ∧
    chain.insertBlock pBlock index =
      some { m_processingChain := chain.m_processingChain ++ [pBlock] } := by
  have hclamp : (if index > chain.m_processingChain.length then chain.m_processingChain.length
      else index) = chain.m_processingChain.length := by
    split <;> omega
  have hend : vectorInsert chain.m_processingChain chain.m_processingChain.length pBlock =
      some (chain.m_processingChain ++ [pBlock]) := by
    rw [vectorInsert_of_le _ _ _ (Nat.le_refl _)]
    simp
  constructor
  · simp only [ProcessingChain.insertBlockAtEnd, ProcessingChain.insertBlock, hclamp]
  · simp only [ProcessingChain.insertBlock, hclamp, hend, Option.map_some']

/-! ## Logging subscribers -/

/-- The search loop finds the target exactly when it is in the list. -/
theorem found_iff_mem {α : Type} [DecidableEq α] (s : List α) (x : α) :
    LoggingEntryPoint.found s x = true ↔ x ∈ s := by
  induction s with
  | nil => simp [LoggingEntryPoint.found]
  | cons p rest ih =>
    simp only [LoggingEntryPoint.found, List.mem_cons]
    by_cases hp : p = x
    · simp [hp]
    · rw [if_neg hp, ih]
      constructor
      · exact Or.inr
      · rintro (h | h)
        · exact absurd h.symm hp
        · exact h

/-- The erase-remove of `unsubscribe` keeps exactly the targets different from
the given one, in their order. -/
theorem unsubscribe_eq_filter {α : Type} [DecidableEq α] (s : List α) (x : α) :
    LoggingEntryPoint.unsubscribe s x = s.filter (fun p => decide (p ≠ x)) := by
  induction s with
  | nil => rfl
  | cons p rest ih =>
    by_cases hp : p = x
    · subst hp
      rw [LoggingEntryPoint.unsubscribe, if_pos rfl, ih, List.filter_cons_of_neg (by simp)]
    · rw [LoggingEntryPoint.unsubscribe, if_neg hp, ih,
        List.filter_cons_of_pos (by simpa using hp)]

/-- Subscribing keeps a list without repetition free of repetition. -/
theorem subscribe_nodup {α : Type} [DecidableEq α] (s : List α) (x : α) (h : s.Nodup) :
    (LoggingEntryPoint.subscribe s x).Nodup := by
  unfold LoggingEntryPoint.subscribe
  by_cases hf : LoggingEntryPoint.found s x = true
  · simp [hf, h]
  · have hx : x ∉ s := fun hm => hf ((found_iff_mem s x).mpr hm)
    have hff : LoggingEntryPoint.found s x = false := by simpa using hf
    rw [if_pos hff]
    exact List.Nodup.append h (List.nodup_singleton x) (by simpa using hx)

/-- Every list reached by calls from a list without repetition is without
repetition. -/
theorem run_nodup {α : Type} [DecidableEq α] (calls : List (LoggingEntryPoint.Call α))
    (s : List α) (h : s.Nodup) : (LoggingEntryPoint.run s calls).Nodup := by
  induction calls generalizing s with
  | nil => exact h
  | cons c calls ih =>
    cases c with
    | subscribe x => exact ih _ (subscribe_nodup s x h)
    | unsubscribe x =>
      apply ih
      rw [unsubscribe_eq_filter]
      exact h.filter _

/-- C29: starting from the empty list, after any sequence of `subscribe` and
`unsubscribe` calls every target occurs at most once in the subscriber list.
On such a list, subscribing a target that is subscribed changes nothing,
`unsubscribe` removes the target and keeps the other targets in their order, and
unsubscribing a target that is not subscribed changes nothing. -/
theorem subscribers_never_twice {α : Type} [DecidableEq α]
    (calls : List (LoggingEntryPoint.Call α)) (x y : α) :
    (LoggingEntryPoint.run [] calls).Nodup ∧
    (LoggingEntryPoint.run [] calls).count x ≤ 1 ∧
    (x ∈ LoggingEntryPoint.run [] calls →
      LoggingEntryPoint.subscribe (LoggingEntryPoint.run [] calls) x =
        LoggingEntryPoint.run [] calls) ∧
    x ∉ LoggingEntryPoint.unsubscribe (LoggingEntryPoint.run [] calls) x ∧
    LoggingEntryPoint.unsubscribe (LoggingEntryPoint.run [] calls) x =
      (LoggingEntryPoint.run [] calls).filter (fun p => decide (p ≠ x)) ∧
    (y ≠ x → (y ∈ LoggingEntryPoint.unsubscribe (LoggingEntryPoint.run [] calls) x ↔
      y ∈ LoggingEntryPoint.run [] calls)) ∧
    (x ∉ LoggingEntryPoint.run [] calls →
      LoggingEntryPoint.unsubscribe (LoggingEntryPoint.run [] calls) x =
        LoggingEntryPoint.run [] calls) := by
  have hn := run_nodup calls ([] : List α) List.nodup_nil
  refine ⟨hn, List.nodup_iff_count_le_one.mp hn x, ?_, ?_, unsubscribe_eq_filter _ x, ?_, ?_⟩
  · intro hx
    simp [LoggingEntryPoint.subscribe, (found_iff_mem _ x).mpr hx]
  · rw [unsubscribe_eq_filter]
    simp
  · intro hy
    rw [unsubscribe_eq_filter]
    simp [hy]
  · intro hx
    rw [unsubscribe_eq_filter, List.filter_eq_self]
    intro a ha
    have : a ≠ x := fun h => hx (h ▸ ha)
    simpa using this

/-! ## Concert: positions, empty concert, JSON round trip -/

/-- C21: for a position that is negative or not below `size()`, `getPatch`
returns none, and `removePatch` returns false and leaves the concert, hence the
patch collection, as it was. -/
theorem patch_position_out_of_range (c : Concert) (position : Int)
    (h : position < 0 ∨ position ≥ (c.size : Int)) :
    c.getPatch position = none ∧ c.removePatch position = (c, false) ∧
    (c.removePatch position).1.m_patches = c.m_patches := by
  have hn : ¬ (0 ≤ position ∧ position < (c.m_patches.length : Int)) := by
    unfold Concert.size at h
    omega
  simp only [Concert.getPatch, Concert.removePatch, if_neg hn]
  exact ⟨trivial, trivial, trivial⟩

/-- In a concert without patches queued work can change the bank only. -/
theorem runTask_of_no_patches (c : Concert) (t : ScheduledTask) (h : c.m_patches = []) :
    c.runTask t = { c with m_currentBank := (c.runTask t).m_currentBank } := by
  cases t with
  | controlChange channel controllerNumber value =>
    simp only [Concert.runTask, Concert.handleControlChange]
    split
    · split
      · rfl
      · split <;> rfl
    · rfl
  | programChange channel program =>
    have hfind : Concert.findPatch c.m_currentBank program c.m_patches = none := by
      rw [h]; rfl
    simp only [Concert.runTask, Concert.handleProgramChange, hfind]
    split <;> rfl

/-- In a concert without patches a whole queue of work can change the bank only. -/
theorem foldl_runTask_of_no_patches (ts : List ScheduledTask) (c : Concert)
    (h : c.m_patches = []) :
    ts.foldl Concert.runTask c =
      { c with m_currentBank := (ts.foldl Concert.runTask c).m_currentBank } := by
  induction ts generalizing c with
  | nil => rfl
  | cons t ts ih =>
    simp only [List.foldl_cons]
    have h1 := runTask_of_no_patches c t h
    have h2 : (c.runTask t).m_patches = [] := by rw [h1]; exact h
    have h3 := ih (c.runTask t) h2
    rw [h3]
    rw [h1]

/-- C23 fails as stated: in the test `bankSelect` the concert has no patches,
and `execute()` changes its state, the bank going from 0 to 129 and the queued
work being consumed. -/
theorem execute_empty_counterexample :
    ((((Concert.new.setListeningToProgramChange true).setProgramChangeChannel
        0).onControlChange 0 32 1).onControlChange 0 0 1).size = 0 ∧
    ((((Concert.new.setListeningToProgramChange true).setProgramChangeChannel
        0).onControlChange 0 32 1).onControlChange 0 0 1).m_activePatch = none ∧
    ((((Concert.new.setListeningToProgramChange true).setProgramChangeChannel
        0).onControlChange 0 32 1).onControlChange 0 0 1).m_currentBank = 0 ∧
    ((((Concert.new.setListeningToProgramChange true).setProgramChangeChannel
        0).onControlChange 0 32 1).onControlChange 0 0 1).execute.1.m_currentBank = 129 ∧
    ((((Concert.new.setListeningToProgramChange true).setProgramChangeChannel
        0).onControlChange 0 32 1).onControlChange 0 0 1).m_scheduler.length = 2 ∧
    ((((Concert.new.setListeningToProgramChange true).setProgramChangeChannel
        0).onControlChange 0 32 1).onControlChange 0 0 1).execute.1.m_scheduler.length = 0 := by
  refine ⟨rfl, rfl, rfl, rfl, rfl, rfl⟩

/-- C23 (as amended): `execute()` on a concert with no patches returns, runs
the queued work, which can change the current bank and empties the queue, and
leaves everything else as it was; it calls `execute` of no patch and notifies no
observer. With no work queued the state is unchanged. -/
theorem execute_empty (c : Concert) (h : c.m_patches = []) :
    c.execute.2.executed = [] ∧ c.execute.2.notified = [] ∧
    c.execute.1 =
      { c with m_currentBank := c.runPending.m_currentBank, m_scheduler := [] } ∧
    (c.m_scheduler = [] → c.execute.1 = c) := by
  have hf := foldl_runTask_of_no_patches c.m_scheduler c h
  have hrun : c.runPending =
      { c with m_currentBank := c.runPending.m_currentBank, m_scheduler := [] } := by
    simp only [Concert.runPending]
    rw [hf]
  have hp : c.runPending.m_patches = [] := by rw [hrun]; exact h
  have hexec : c.execute = (c.runPending, { executed := [], notified := [] }) := by
    unfold Concert.execute
    simp only []
    split
    · rfl
    · rename_i position hpos
      simp only [hp, List.getElem?_nil]
  refine ⟨by rw [hexec], by rw [hexec], by rw [hexec]; exact hrun, ?_⟩
  intro hq
  rw [hexec]
  simp only [Concert.runPending, hq, List.foldl_nil]
  cases c
  simp only at hq
  subst hq
  rfl

/-- Decoding the encoded note to light map gives back the map, when the note
number strings can be read back. -/
theorem noteToLightMap_round_trip (noteKey : Nat → String) (parseNoteKey : String → Option Nat)
    (hkey : ∀ n, parseNoteKey (noteKey n) = some n) (m : TNoteToLightMap) :
    Concert.noteToLightMapFromJson parseNoteKey
      (m.map (fun e => (noteKey e.1, Json.number e.2))) = m := by
  induction m with
  | nil => rfl
  | cons e rest ih =>
    simp only [List.map_cons, Concert.noteToLightMapFromJson, hkey, ih]

/-- When the function gives a result for every element, `filterMap` keeps every
element, in order. -/
theorem filterMap_of_all_some {α β : Type _} (f : α → Option β) (l : List α)
    (h : ∀ x ∈ l, (f x).isSome = true) :
    (l.filterMap f).map some = l.map f ∧ (l.filterMap f).length = l.length := by
  induction l with
  | nil => exact ⟨rfl, rfl⟩
  | cons x xs ih =>
    obtain ⟨i1, i2⟩ := ih (fun y hy => h y (List.mem_cons_of_mem x hy))
    have hx := h x (List.mem_cons_self x xs)
    cases hfx : f x with
    | none => rw [hfx] at hx; exact absurd hx (by simp)
    | some y =>
      simp only [List.filterMap_cons, hfx, List.map_cons, List.length_cons, i1, i2]
      exact ⟨trivial, trivial⟩

/-- C22: decoding `convertToJson(c)` into a fresh concert reproduces the
listening flag, the current bank, the program change channel and the note to
light map of `c`, and gives as many patches as `c` has, the patch at each
position being the one the factory creates from the document of the patch of `c`
at that position. The note number strings are assumed to be readable back, and
the factory to create a patch from every patch document. -/
theorem concert_round_trip (createPatch : Json Nat → Option IPatch)
    (patchToJson : IPatch → Json Nat) (noteKey : Nat → String)
    (parseNoteKey : String → Option Nat) (c : Concert)
    (hkey : ∀ n, parseNoteKey (noteKey n) = some n)
    (hfactory : ∀ p ∈ c.m_patches, (createPatch (patchToJson p)).isSome = true) :
    (Concert.new.convertFromJson createPatch parseNoteKey
        (c.convertToJson patchToJson noteKey)).m_listeningToProgramChange =
      c.m_listeningToProgramChange ∧
    (Concert.new.convertFromJson createPatch parseNoteKey
        (c.convertToJson patchToJson noteKey)).m_currentBank = c.m_currentBank ∧
    (Concert.new.convertFromJson createPatch parseNoteKey
        (c.convertToJson patchToJson noteKey)).m_programChangeChannel =
      c.m_programChangeChannel ∧
    (Concert.new.convertFromJson createPatch parseNoteKey
        (c.convertToJson patchToJson noteKey)).m_noteToLightMap = c.m_noteToLightMap ∧
    (Concert.new.convertFromJson createPatch parseNoteKey
        (c.convertToJson patchToJson noteKey)).m_patches.length = c.m_patches.length ∧
    (Concert.new.convertFromJson createPatch parseNoteKey
        (c.convertToJson patchToJson noteKey)).m_patches.map some =
      c.m_patches.map (fun p => createPatch (patchToJson p)) := by
  have hdec : Concert.new.convertFromJson createPatch parseNoteKey
      (c.convertToJson patchToJson noteKey) =
      { Concert.new with
        m_listeningToProgramChange := c.m_listeningToProgramChange,
        m_noteToLightMap := Concert.noteToLightMapFromJson parseNoteKey
          (c.m_noteToLightMap.map (fun e => (noteKey e.1, Json.number e.2))),
        m_programChangeChannel := c.m_programChangeChannel,
        m_currentBank := c.m_currentBank,
        m_patches := (c.m_patches.map patchToJson).filterMap createPatch,
        m_activePatch := none } := by
    simp [Concert.convertFromJson, Concert.convertToJson, Json.get, Json.lookupMember,
      Concert.c_isListeningToProgramChangeJsonKey, Concert.c_noteToLightMapJsonKey,
      Concert.c_programChangeChannelJsonKey, Concert.c_currentBankJsonKey,
      Concert.c_patchesJsonKey]
  have hpatches := filterMap_of_all_some createPatch (c.m_patches.map patchToJson)
    (by
      intro d hd
      obtain ⟨p, hp, rfl⟩ := List.mem_map.mp hd
      exact hfactory p hp)
  rw [hdec]
  refine ⟨rfl, rfl, rfl, noteToLightMap_round_trip noteKey parseNoteKey hkey _, ?_, ?_⟩
  · simpa using hpatches.2
  · simpa using hpatches.1

/-! ## Further instances at concrete inputs -/

/-- Instance of C21: a concert with one patch, position 1. -/
theorem patch_position_out_of_range_witness :
    ((1 : Int) < 0 ∨ (1 : Int) ≥ ((Concert.new.addPatch (plainPatch "first")).1.size : Int)) ∧
    (Concert.new.addPatch (plainPatch "first")).1.getPatch 1 = none ∧
    ((Concert.new.addPatch (plainPatch "first")).1.removePatch 1).2 = false :=
  ⟨Or.inr (by decide),
    (patch_position_out_of_range (Concert.new.addPatch (plainPatch "first")).1 1
      (Or.inr (by decide))).1,
    congrArg Prod.snd
      (patch_position_out_of_range (Concert.new.addPatch (plainPatch "first")).1 1
        (Or.inr (by decide))).2.1⟩

/-- Instance of C22: the concert of the test `convertToJson`, with unary note
number strings and a factory that creates a patch from every document. -/
theorem concert_round_trip_witness :
    (∀ n, parseUnaryNoteKey (unaryNoteKey n) = some n) ∧
    (∀ p ∈ roundTripScenario.m_patches,
      ((fun _ => some (plainPatch "decoded")) (Json.string p.name : Json Nat)).isSome = true) ∧
    (Concert.new.convertFromJson (fun _ => some (plainPatch "decoded")) parseUnaryNoteKey
        (roundTripScenario.convertToJson (fun p => Json.string p.name)
          unaryNoteKey)).m_currentBank = 2 ∧
    (Concert.new.convertFromJson (fun _ => some (plainPatch "decoded")) parseUnaryNoteKey
        (roundTripScenario.convertToJson (fun p => Json.string p.name)
          unaryNoteKey)).m_noteToLightMap = [(1, 10), (2, 20)] ∧
    (Concert.new.convertFromJson (fun _ => some (plainPatch "decoded")) parseUnaryNoteKey
        (roundTripScenario.convertToJson (fun p => Json.string p.name)
          unaryNoteKey)).m_patches.length = 2 :=
  ⟨fun n => by simp [parseUnaryNoteKey, unaryNoteKey, String.length],
    fun _ _ => rfl,
    (concert_round_trip (fun _ => some (plainPatch "decoded")) (fun p => Json.string p.name)
      unaryNoteKey parseUnaryNoteKey roundTripScenario
      (fun n => by simp [parseUnaryNoteKey, unaryNoteKey, String.length])
      (fun _ _ => rfl)).2.1,
    (concert_round_trip (fun _ => some (plainPatch "decoded")) (fun p => Json.string p.name)
      unaryNoteKey parseUnaryNoteKey roundTripScenario
      (fun n => by simp [parseUnaryNoteKey, unaryNoteKey, String.length])
      (fun _ _ => rfl)).2.2.2.1,
    (concert_round_trip (fun _ => some (plainPatch "decoded")) (fun p => Json.string p.name)
      unaryNoteKey parseUnaryNoteKey roundTripScenario
      (fun n => by simp [parseUnaryNoteKey, unaryNoteKey, String.length])
      (fun _ _ => rfl)).2.2.2.2.1⟩

/-- Instance of C23 (as amended): the concert of the test `bankSelect`, which
has no patches and two bank select events queued. -/
theorem execute_empty_witness :
    ((((Concert.new.setListeningToProgramChange true).setProgramChangeChannel
        0).onControlChange 0 32 1).onControlChange 0 0 1).m_patches = [] ∧
    ((((Concert.new.setListeningToProgramChange true).setProgramChangeChannel
        0).onControlChange 0 32 1).onControlChange 0 0 1).execute.2.notified = [] ∧
    ((((Concert.new.setListeningToProgramChange true).setProgramChangeChannel
        0).onControlChange 0 32 1).onControlChange 0 0 1).execute.2.executed = [] :=
  ⟨rfl,
    (execute_empty ((((Concert.new.setListeningToProgramChange true).setProgramChangeChannel
      0).onControlChange 0 32 1).onControlChange 0 0 1) rfl).2.1,
    (execute_empty ((((Concert.new.setListeningToProgramChange true).setProgramChangeChannel
      0).onControlChange 0 32 1).onControlChange 0 0 1) rfl).1⟩

/-- Instance of C24: after the bytes `0x90, 60` a note-on is being built. -/
theorem buffer_starts_with_status_witness :
    (processMidiBytes BaseMidiInput.new [0x90, 60]).1.m_buildingMessage = true ∧
    ∃ b rest, (processMidiBytes BaseMidiInput.new [0x90, 60]).1.m_currentMessage = b :: rest ∧
      b &&& 0x80 = 0x80 ∧
      ((processMidiBytes BaseMidiInput.new [0x90, 60]).1.m_currentMessage.getD 0 0) &&& 0x80 =
        0x80 :=
  ⟨rfl, buffer_starts_with_status [0x90, 60] rfl⟩

/-- Instance of C25: a note-on followed by a program change. -/
theorem stream_is_compositional_witness :
    (processMidiBytes ⟨false, []⟩ [0x90, 60, 100]).1.m_buildingMessage = false ∧
    (∀ e ∈ [MidiEvent.noteOnOff 0 60 100 true, MidiEvent.programChange 1 5],
      e.channel < 16) ∧
    (processMidiBytes ⟨false, []⟩ ([0x90, 60, 100] ++ [0xC1, 5])).2 =
      (processMidiBytes ⟨false, []⟩ [0x90, 60, 100]).2 ++
        (processMidiBytes ⟨false, []⟩ [0xC1, 5]).2 ∧
    (processMidiBytes ⟨false, []⟩
      ([MidiEvent.noteOnOff 0 60 100 true, MidiEvent.programChange 1 5].foldr
        (fun e acc => e.toBytes ++ acc) [])).2 =
      [MidiEvent.noteOnOff 0 60 100 true, MidiEvent.programChange 1 5] :=
  ⟨rfl, by decide,
    (stream_is_compositional [] [] [0x90, 60, 100] [0xC1, 5]
      [MidiEvent.noteOnOff 0 60 100 true, MidiEvent.programChange 1 5] rfl (by decide)).1,
    (stream_is_compositional [] [] [0x90, 60, 100] [0xC1, 5]
      [MidiEvent.noteOnOff 0 60 100 true, MidiEvent.programChange 1 5] rfl (by decide)).2.2⟩

/-- Instance of C26: after the byte `0xC1` a program change is being built and
the buffer holds exactly one byte. -/
theorem buffer_bounded_witness :
    (processMidiBytes BaseMidiInput.new [0xC1]).1.m_buildingMessage = true ∧
    ((processMidiBytes BaseMidiInput.new [0xC1]).1.m_currentMessage.getD 0 0) &&& 0xF0 = 0xC0 ∧
    (processMidiBytes BaseMidiInput.new [0xC1]).1.m_currentMessage.length = 1 ∧
    ((processMidiBytes BaseMidiInput.new [0xC1]).1.m_currentMessage ++ [5]).length = 2 :=
  ⟨rfl, rfl, ((buffer_bounded [0xC1] 5).2.1 rfl).2.2.2 rfl⟩

/-- Instance of C28: a chain of one block, index 5. -/
theorem insertBlock_overloads_agree_witness :
    5 ≥ (⟨[some passThroughBlock]⟩ : ProcessingChain).m_processingChain.length ∧
    (⟨[some passThroughBlock]⟩ : ProcessingChain).insertBlockAtEnd none =
      (⟨[some passThroughBlock]⟩ : ProcessingChain).insertBlock none 5 :=
  ⟨by decide, (insertBlock_overloads_agree ⟨[some passThroughBlock]⟩ none 5 (by decide)).1⟩

/-- Instance of C29: target 1 subscribed twice, target 2 once, then target 1
unsubscribed. -/
theorem subscribers_never_twice_witness :
    (1 : Nat) ∈ LoggingEntryPoint.run []
      [LoggingEntryPoint.Call.subscribe 1, LoggingEntryPoint.Call.subscribe 2,
        LoggingEntryPoint.Call.subscribe 1] ∧
    (LoggingEntryPoint.run []
      [LoggingEntryPoint.Call.subscribe 1, LoggingEntryPoint.Call.subscribe 2,
        LoggingEntryPoint.Call.subscribe 1]).count 1 ≤ 1 ∧
    LoggingEntryPoint.subscribe (LoggingEntryPoint.run []
      [LoggingEntryPoint.Call.subscribe 1, LoggingEntryPoint.Call.subscribe 2,
        LoggingEntryPoint.Call.subscribe 1]) 1 =
      LoggingEntryPoint.run []
        [LoggingEntryPoint.Call.subscribe 1, LoggingEntryPoint.Call.subscribe 2,
          LoggingEntryPoint.Call.subscribe 1] :=
  ⟨by decide,
    (subscribers_never_twice
      [LoggingEntryPoint.Call.subscribe 1, LoggingEntryPoint.Call.subscribe 2,
        LoggingEntryPoint.Call.subscribe 1] 1 2).2.1,
    (subscribers_never_twice
      [LoggingEntryPoint.Call.subscribe 1, LoggingEntryPoint.Call.subscribe 2,
        LoggingEntryPoint.Call.subscribe 1] 1 2).2.2.1 (by decide)⟩

end PianoLeds
